import Mathlib

/-!
UTFPP: conversions between UTF-8, UTF-16 and UTF-32.

A shallow embedding of `utf.hpp` / `utf.cpp`.

* Code units and codepoints are natural numbers; the casts `UTF8`, `UTF16`, `UTF32` and the
  32-bit arithmetic of the source are written with explicit reductions modulo `2 ^ w`.
* A buffer is a list of units (the allocation) and a pointer is an index into it.  The
  end-of-buffer pointers of the source are separate numbers, exactly as in the code: a function
  that never compares against its `end` argument can walk past it.  Dereferencing an index outside
  the allocation is undefined behaviour in C++; the embedding makes it the explicit outcome
  `MemoryFault`.
* A C++ exception leaves the cursors that were passed by reference where they were when it was
  thrown, so every function returns its outcome together with the final cursor (and memory).
* In `*begin++ = checkStrict(strict)` the right operand is evaluated first (C++17), so a throwing
  `checkStrict` leaves the cursor and the destination untouched.
-/

namespace utf
namespace detail

/-! ## Exceptions -/

/-- Outcomes other than a normal return.  The first two are the exception types of the source;
`MemoryFault` stands for an access outside the allocation and `FuelExhausted` for a transcoding
loop of the embedding that was given too little fuel (neither is a C++ exception). -/
inductive UtfError where
  | IllegalCharacterError
  | BufferRangeError
  | MemoryFault
  | FuelExhausted
  deriving DecidableEq, Repr

deriving instance DecidableEq for Except

/-! ## Macros and machine arithmetic -/

/-- The cast `static_cast<uint32_t>(x)`. -/
def UTF32 (x : Nat) : Nat := x % 4294967296

/-- The cast `static_cast<uint16_t>(x)`. -/
def UTF16 (x : Nat) : Nat := x % 65536

/-- The cast `static_cast<uint8_t>(x)`. -/
def UTF8 (x : Nat) : Nat := x % 256

/-- Addition of `uint32_t` values. -/
def add32 (a b : Nat) : Nat := (a + b) % 4294967296

/-- Subtraction of `uint32_t` values (wraps around). -/
def sub32 (a b : Nat) : Nat := (a + 4294967296 - b % 4294967296) % 4294967296

/-- Left shift of a `uint32_t` value. -/
def shl32 (a k : Nat) : Nat := (a <<< k) % 4294967296

/-! ## Constants -/

def FIRST_BYTE_MARK : List Nat := [0x00, 0x00, 0xC0, 0xE0, 0xF0, 0xF8, 0xFC]

def UTF8_BYTES : List Nat := [
    0,0,0,0,0,0,0,0,0,0,0,0,0,0,0,0, 0,0,0,0,0,0,0,0,0,0,0,0,0,0,0,0,
    0,0,0,0,0,0,0,0,0,0,0,0,0,0,0,0, 0,0,0,0,0,0,0,0,0,0,0,0,0,0,0,0,
    0,0,0,0,0,0,0,0,0,0,0,0,0,0,0,0, 0,0,0,0,0,0,0,0,0,0,0,0,0,0,0,0,
    0,0,0,0,0,0,0,0,0,0,0,0,0,0,0,0, 0,0,0,0,0,0,0,0,0,0,0,0,0,0,0,0,
    0,0,0,0,0,0,0,0,0,0,0,0,0,0,0,0, 0,0,0,0,0,0,0,0,0,0,0,0,0,0,0,0,
    0,0,0,0,0,0,0,0,0,0,0,0,0,0,0,0, 0,0,0,0,0,0,0,0,0,0,0,0,0,0,0,0,
    1,1,1,1,1,1,1,1,1,1,1,1,1,1,1,1, 1,1,1,1,1,1,1,1,1,1,1,1,1,1,1,1,
    2,2,2,2,2,2,2,2,2,2,2,2,2,2,2,2, 3,3,3,3,3,3,3,3,4,4,4,4,5,5,5,5]

def UTF8_OFFSETS : List Nat :=
  [0x00000000, 0x00003080, 0x000E2080, 0x03C82080, 0xFA082080, 0x82082080]

/-! ## Helpers -/

/-- Replace illegal Unicode character if checkStrict is off. -/
def checkStrict (strict : Bool) : Except UtfError Nat :=
  if strict then .error .IllegalCharacterError else .ok 0x0000FFFD

/-! ## Memory -/

/-- A destination buffer: the allocation and the write cursor (`begin` in the source). -/
structure Buffer where
  mem : List Nat
  pos : Nat
  deriving DecidableEq, Repr

/-- The read `*p`. -/
def load (mem : List Nat) (p : Nat) : Except UtfError Nat :=
  match mem[p]? with
  | some v => .ok v
  | none => .error .MemoryFault

/-- The write `*begin++ = v`. -/
def writeInc (d : Buffer) (v : Nat) : Except UtfError Unit × Buffer :=
  if d.pos < d.mem.length then (.ok (), ⟨d.mem.set d.pos v, d.pos + 1⟩)
  else (.error .MemoryFault, d)

/-- The write `*--begin = v`. -/
def decWrite (d : Buffer) (v : Nat) : Except UtfError Unit × Buffer :=
  if d.pos - 1 < d.mem.length then (.ok (), ⟨d.mem.set (d.pos - 1) v, d.pos - 1⟩)
  else (.error .MemoryFault, ⟨d.mem, d.pos - 1⟩)

/-! ## Characters -/

namespace character

/-- Convert UTF-32 character to UTF-16. -/
def utf32To16 (c : Nat) (d : Buffer) (endp : Nat) (strict : Bool) :
    Except UtfError Unit × Buffer :=
  let maxUtf32 := 0x0010FFFF
  let highBegin := 0xD800
  let lowBegin := 0xDC00
  let maxbmp := 0x0000FFFF
  let shift := 10
  let base := 0x0010000
  let mask := 0x3FF
  if c ≤ maxbmp then
    if c ≥ highBegin ∧ c ≤ lowBegin then
      match checkStrict strict with
      | .error e => (.error e, d)
      | .ok r => writeInc d (UTF16 r)
    else
      writeInc d (UTF16 c)
  else if c > maxUtf32 then
    match checkStrict strict with
    | .error e => (.error e, d)
    | .ok r => writeInc d (UTF16 r)
  else
    if d.pos + 1 > endp then (.error .BufferRangeError, d)
    else
      let c1 := sub32 c base
      match writeInc d (UTF16 (add32 (c1 >>> shift) highBegin)) with
      | (.error e, d1) => (.error e, d1)
      | (.ok _, d1) => writeInc d1 (UTF16 (add32 (c1 &&& mask) lowBegin))

/-- The label `case 1:` of the switch in `utf32To8`. -/
def utf32To8Case1 (bytes c : Nat) (d : Buffer) : Except UtfError Unit × Buffer :=
  decWrite d (UTF8 (c ||| FIRST_BYTE_MARK.getD bytes 0))

/-- The label `case 2:` of the switch in `utf32To8`, falling through to `case 1:`. -/
def utf32To8Case2 (bytes c : Nat) (d : Buffer) : Except UtfError Unit × Buffer :=
  match decWrite d (UTF8 ((c ||| 0x80) &&& 0xBF)) with
  | (.error e, d1) => (.error e, d1)
  | (.ok _, d1) => utf32To8Case1 bytes (c >>> 6) d1

/-- The label `case 3:` of the switch in `utf32To8`, falling through to `case 2:`. -/
def utf32To8Case3 (bytes c : Nat) (d : Buffer) : Except UtfError Unit × Buffer :=
  match decWrite d (UTF8 ((c ||| 0x80) &&& 0xBF)) with
  | (.error e, d1) => (.error e, d1)
  | (.ok _, d1) => utf32To8Case2 bytes (c >>> 6) d1

/-- The label `case 4:` of the switch in `utf32To8`, falling through to `case 3:`. -/
def utf32To8Case4 (bytes c : Nat) (d : Buffer) : Except UtfError Unit × Buffer :=
  match decWrite d (UTF8 ((c ||| 0x80) &&& 0xBF)) with
  | (.error e, d1) => (.error e, d1)
  | (.ok _, d1) => utf32To8Case3 bytes (c >>> 6) d1

/-- The statement `switch (bytes) \x7b ... \x7d` of `utf32To8`. -/
def utf32To8Switch (bytes c : Nat) (d : Buffer) : Except UtfError Unit × Buffer :=
  match bytes with
  | 4 => utf32To8Case4 bytes c d
  | 3 => utf32To8Case3 bytes c d
  | 2 => utf32To8Case2 bytes c d
  | 1 => utf32To8Case1 bytes c d
  | _ => (.ok (), d)

/-- The byte count and the value to encode chosen by the first statement of `utf32To8`. -/
def utf32To8Bytes (c : Nat) (strict : Bool) : Except UtfError (Nat × Nat) :=
  let maxUtf32 := 0x0010FFFF
  if c < 0x80 then .ok (1, c)
  else if c < 0x800 then .ok (2, c)
  else if c < 0x10000 then .ok (3, c)
  else if c ≤ maxUtf32 then .ok (4, c)
  else
    match checkStrict strict with
    | .error e => .error e
    | .ok r => .ok (3, r)

/-- Convert UTF-32 character to UTF-8. -/
def utf32To8 (c : Nat) (d : Buffer) (endp : Nat) (strict : Bool) :
    Except UtfError Unit × Buffer :=
  match utf32To8Bytes c strict with
  | .error e => (.error e, d)
  | .ok (bytes, c1) =>
    if d.pos + bytes > endp then (.error .BufferRangeError, d)
    else
      match utf32To8Switch bytes c1 ⟨d.mem, d.pos + bytes⟩ with
      | (.error e, d1) => (.error e, d1)
      | (.ok _, d1) => (.ok (), ⟨d1.mem, d1.pos + bytes⟩)

/-- Convert UTF16 characters to UTF32.  The result is the outcome and the final read cursor;
the bound `endp` is not consulted, as in the source. -/
def utf16To32 (src : List Nat) (begin : Nat) (_endp : Nat) (strict : Bool) :
    Except UtfError Nat × Nat :=
  let highBegin := 0xD800
  let highEnd := 0xDBFF
  let lowBegin := 0xDC00
  let lowEnd := 0xDFFF
  let shift := 10
  let base := 0x0010000
  match load src begin with
  | .error e => (.error e, begin)
  | .ok c1 =>
    if c1 ≥ highBegin ∧ c1 ≤ highEnd then
      match load src (begin + 1) with
      | .error e => (.error e, begin + 1)
      | .ok c2 =>
        if c2 ≥ lowBegin ∧ c2 ≤ lowEnd then
          (.ok (add32 (add32 (shl32 (sub32 c1 highBegin) shift) (sub32 c2 lowBegin)) base),
            begin + 2)
        else
          (checkStrict strict, begin + 2)
    else if c1 ≥ lowBegin ∧ c1 ≤ lowEnd then
      (checkStrict strict, begin + 1)
    else
      (.ok c1, begin + 1)

/-- The label `case 0:` of the switch in `utf8To32`: `c += *begin++`. -/
def utf8To32Case0 (src : List Nat) (c begin : Nat) : Except UtfError Nat × Nat :=
  match load src begin with
  | .error e => (.error e, begin)
  | .ok v => (.ok (add32 c v), begin + 1)

/-- The label `case 1:` of the switch in `utf8To32`, falling through to `case 0:`. -/
def utf8To32Case1 (src : List Nat) (c begin : Nat) : Except UtfError Nat × Nat :=
  match load src begin with
  | .error e => (.error e, begin)
  | .ok v => utf8To32Case0 src (shl32 (add32 c v) 6) (begin + 1)

/-- The label `case 2:` of the switch in `utf8To32`, falling through to `case 1:`. -/
def utf8To32Case2 (src : List Nat) (c begin : Nat) : Except UtfError Nat × Nat :=
  match load src begin with
  | .error e => (.error e, begin)
  | .ok v => utf8To32Case1 src (shl32 (add32 c v) 6) (begin + 1)

/-- The label `case 3:` of the switch in `utf8To32`, falling through to `case 2:`. -/
def utf8To32Case3 (src : List Nat) (c begin : Nat) : Except UtfError Nat × Nat :=
  match load src begin with
  | .error e => (.error e, begin)
  | .ok v => utf8To32Case2 src (shl32 (add32 c v) 6) (begin + 1)

/-- The label `case 4:` of the switch in `utf8To32`, falling through to `case 3:`.  The value
accumulated so far is overwritten by `checkStrict(strict)`. -/
def utf8To32Case4 (src : List Nat) (_c begin : Nat) (strict : Bool) :
    Except UtfError Nat × Nat :=
  match checkStrict strict with
  | .error e => (.error e, begin)
  | .ok r => utf8To32Case3 src (shl32 r 6) begin

/-- The label `case 5:` of the switch in `utf8To32`, falling through to `case 4:`. -/
def utf8To32Case5 (src : List Nat) (_c begin : Nat) (strict : Bool) :
    Except UtfError Nat × Nat :=
  match checkStrict strict with
  | .error e => (.error e, begin)
  | .ok r => utf8To32Case4 src (shl32 r 6) begin strict

/-- The statement `switch (bytes) \x7b ... \x7d` of `utf8To32`. -/
def utf8To32Switch (src : List Nat) (bytes c begin : Nat) (strict : Bool) :
    Except UtfError Nat × Nat :=
  match bytes with
  | 5 => utf8To32Case5 src c begin strict
  | 4 => utf8To32Case4 src c begin strict
  | 3 => utf8To32Case3 src c begin
  | 2 => utf8To32Case2 src c begin
  | 1 => utf8To32Case1 src c begin
  | 0 => utf8To32Case0 src c begin
  | _ => (.ok c, begin)

/-- Convert UTF-8 character to UTF-32.  The result is the outcome and the final read cursor. -/
def utf8To32 (src : List Nat) (begin : Nat) (endp : Nat) (strict : Bool) :
    Except UtfError Nat × Nat :=
  match load src begin with
  | .error e => (.error e, begin)
  | .ok b =>
    let bytes := UTF8_BYTES.getD b 0
    if begin + bytes ≥ endp then (.error .IllegalCharacterError, begin)
    else
      match utf8To32Switch src bytes 0 begin strict with
      | (.error e, begin1) => (.error e, begin1)
      | (.ok c, begin1) => (.ok (sub32 c (UTF8_OFFSETS.getD bytes 0)), begin1)

end character

/-! ## Arrays -/

namespace array

/-- The state of a transcoding loop: the read cursor `src` and the destination with its write
cursor `dst`. -/
abbrev Cursors := Nat × Buffer

/-- The statement `while (src < srcEnd && dst < dstEnd) body`.  The first argument bounds the
number of iterations; running out of it with the loop condition still true is reported as
`FuelExhausted`. -/
def whileLoop (body : Nat → Buffer → Except UtfError Unit × Cursors) (srcEnd dstEnd : Nat) :
    Nat → Nat → Buffer → Except UtfError Unit × Cursors
  | 0, src, dst =>
    if src < srcEnd ∧ dst.pos < dstEnd then (.error .FuelExhausted, (src, dst))
    else (.ok (), (src, dst))
  | fuel + 1, src, dst =>
    if src < srcEnd ∧ dst.pos < dstEnd then
      match body src dst with
      | (.error e, st) => (.error e, st)
      | (.ok _, (src1, dst1)) => whileLoop body srcEnd dstEnd fuel src1 dst1
    else (.ok (), (src, dst))

/-- The value `dst - dstBegin` returned by every array-level function, with the final memory. -/
def written (dstBegin : Nat) (r : Except UtfError Unit × Cursors) : Except UtfError Nat × List Nat :=
  match r with
  | (.error e, (_, d)) => (.error e, d.mem)
  | (.ok _, (_, d)) => (.ok (d.pos - dstBegin), d.mem)

/-- Loop body `utf32To16(*src++, dst, dstEnd, strict)`. -/
def utf32To16Body (mem : List Nat) (dstEnd : Nat) (strict : Bool) (src : Nat) (dst : Buffer) :
    Except UtfError Unit × Cursors :=
  match load mem src with
  | .error e => (.error e, (src, dst))
  | .ok c =>
    match character.utf32To16 c dst dstEnd strict with
    | (r, dst1) => (r, (src + 1, dst1))

/-- Loop body `*dst++ = utf16To32(src, srcEnd, strict)`. -/
def utf16To32Body (mem : List Nat) (srcEnd : Nat) (strict : Bool) (src : Nat) (dst : Buffer) :
    Except UtfError Unit × Cursors :=
  match character.utf16To32 mem src srcEnd strict with
  | (.error e, src1) => (.error e, (src1, dst))
  | (.ok c, src1) =>
    match writeInc dst (UTF32 c) with
    | (r, dst1) => (r, (src1, dst1))

/-- Loop body `utf32To8(utf16To32(src, srcEnd, strict), dst, dstEnd, strict)`. -/
def utf16To8Body (mem : List Nat) (srcEnd dstEnd : Nat) (strict : Bool) (src : Nat)
    (dst : Buffer) : Except UtfError Unit × Cursors :=
  match character.utf16To32 mem src srcEnd strict with
  | (.error e, src1) => (.error e, (src1, dst))
  | (.ok c, src1) =>
    match character.utf32To8 c dst dstEnd strict with
    | (r, dst1) => (r, (src1, dst1))

/-- Loop body `utf32To16(utf8To32(src, srcEnd, strict), dst, dstEnd, strict)`. -/
def utf8To16Body (mem : List Nat) (srcEnd dstEnd : Nat) (strict : Bool) (src : Nat)
    (dst : Buffer) : Except UtfError Unit × Cursors :=
  match character.utf8To32 mem src srcEnd strict with
  | (.error e, src1) => (.error e, (src1, dst))
  | (.ok c, src1) =>
    match character.utf32To16 c dst dstEnd strict with
    | (r, dst1) => (r, (src1, dst1))

/-- Loop body `utf32To8(*src++, dst, dstEnd, strict)`. -/
def utf32To8Body (mem : List Nat) (dstEnd : Nat) (strict : Bool) (src : Nat) (dst : Buffer) :
    Except UtfError Unit × Cursors :=
  match load mem src with
  | .error e => (.error e, (src, dst))
  | .ok c =>
    match character.utf32To8 c dst dstEnd strict with
    | (r, dst1) => (r, (src + 1, dst1))

/-- Loop body `*dst++ = utf8To32(src, srcEnd, strict)`. -/
def utf8To32Body (mem : List Nat) (srcEnd : Nat) (strict : Bool) (src : Nat) (dst : Buffer) :
    Except UtfError Unit × Cursors :=
  match character.utf8To32 mem src srcEnd strict with
  | (.error e, src1) => (.error e, (src1, dst))
  | (.ok c, src1) =>
    match writeInc dst (UTF32 c) with
    | (r, dst1) => (r, (src1, dst1))

/-- The loop of the array-level `utf32To16`, with the final cursors. -/
def utf32To16Loop (mem : List Nat) (srcBegin srcEnd : Nat) (dst : List Nat)
    (dstBegin dstEnd : Nat) (strict : Bool) : Except UtfError Unit × Cursors :=
  whileLoop (utf32To16Body mem dstEnd strict) srcEnd dstEnd (srcEnd - srcBegin) srcBegin
    ⟨dst, dstBegin⟩

/-- Convert UTF32 to UTF16.  Returns the number of units written to dst, and the memory. -/
def utf32To16 (mem : List Nat) (srcBegin srcEnd : Nat) (dst : List Nat)
    (dstBegin dstEnd : Nat) (strict : Bool) : Except UtfError Nat × List Nat :=
  written dstBegin (utf32To16Loop mem srcBegin srcEnd dst dstBegin dstEnd strict)

/-- The loop of the array-level `utf16To32`, with the final cursors. -/
def utf16To32Loop (mem : List Nat) (srcBegin srcEnd : Nat) (dst : List Nat)
    (dstBegin dstEnd : Nat) (strict : Bool) : Except UtfError Unit × Cursors :=
  whileLoop (utf16To32Body mem srcEnd strict) srcEnd dstEnd (srcEnd - srcBegin) srcBegin
    ⟨dst, dstBegin⟩

/-- Convert UTF16 to UTF32.  Returns the number of units written to dst, and the memory. -/
def utf16To32 (mem : List Nat) (srcBegin srcEnd : Nat) (dst : List Nat)
    (dstBegin dstEnd : Nat) (strict : Bool) : Except UtfError Nat × List Nat :=
  written dstBegin (utf16To32Loop mem srcBegin srcEnd dst dstBegin dstEnd strict)

/-- The loop of the array-level `utf16To8`, with the final cursors. -/
def utf16To8Loop (mem : List Nat) (srcBegin srcEnd : Nat) (dst : List Nat)
    (dstBegin dstEnd : Nat) (strict : Bool) : Except UtfError Unit × Cursors :=
  whileLoop (utf16To8Body mem srcEnd dstEnd strict) srcEnd dstEnd (srcEnd - srcBegin) srcBegin
    ⟨dst, dstBegin⟩

/-- Convert UTF16 to UTF8.  Returns the number of units written to dst, and the memory. -/
def utf16To8 (mem : List Nat) (srcBegin srcEnd : Nat) (dst : List Nat)
    (dstBegin dstEnd : Nat) (strict : Bool) : Except UtfError Nat × List Nat :=
  written dstBegin (utf16To8Loop mem srcBegin srcEnd dst dstBegin dstEnd strict)

/-- The loop of the array-level `utf8To16`, with the final cursors. -/
def utf8To16Loop (mem : List Nat) (srcBegin srcEnd : Nat) (dst : List Nat)
    (dstBegin dstEnd : Nat) (strict : Bool) : Except UtfError Unit × Cursors :=
  whileLoop (utf8To16Body mem srcEnd dstEnd strict) srcEnd dstEnd (srcEnd - srcBegin) srcBegin
    ⟨dst, dstBegin⟩

/-- Convert UTF8 to UTF16.  Returns the number of units written to dst, and the memory. -/
def utf8To16 (mem : List Nat) (srcBegin srcEnd : Nat) (dst : List Nat)
    (dstBegin dstEnd : Nat) (strict : Bool) : Except UtfError Nat × List Nat :=
  written dstBegin (utf8To16Loop mem srcBegin srcEnd dst dstBegin dstEnd strict)

/-- The loop of the array-level `utf32To8`, with the final cursors. -/
def utf32To8Loop (mem : List Nat) (srcBegin srcEnd : Nat) (dst : List Nat)
    (dstBegin dstEnd : Nat) (strict : Bool) : Except UtfError Unit × Cursors :=
  whileLoop (utf32To8Body mem dstEnd strict) srcEnd dstEnd (srcEnd - srcBegin) srcBegin
    ⟨dst, dstBegin⟩

/-- Convert UTF32 to UTF8.  Returns the number of units written to dst, and the memory. -/
def utf32To8 (mem : List Nat) (srcBegin srcEnd : Nat) (dst : List Nat)
    (dstBegin dstEnd : Nat) (strict : Bool) : Except UtfError Nat × List Nat :=
  written dstBegin (utf32To8Loop mem srcBegin srcEnd dst dstBegin dstEnd strict)

/-- The loop of the array-level `utf8To32`, with the final cursors. -/
def utf8To32Loop (mem : List Nat) (srcBegin srcEnd : Nat) (dst : List Nat)
    (dstBegin dstEnd : Nat) (strict : Bool) : Except UtfError Unit × Cursors :=
  whileLoop (utf8To32Body mem srcEnd strict) srcEnd dstEnd (srcEnd - srcBegin) srcBegin
    ⟨dst, dstBegin⟩

/-- Convert UTF8 to UTF32.  Returns the number of units written to dst, and the memory. -/
def utf8To32 (mem : List Nat) (srcBegin srcEnd : Nat) (dst : List Nat)
    (dstBegin dstEnd : Nat) (strict : Bool) : Except UtfError Nat × List Nat :=
  written dstBegin (utf8To32Loop mem srcBegin srcEnd dst dstBegin dstEnd strict)

end array

end detail

/-! ## Functions -/

/-- The bytes of one code unit of `size` bytes in memory (native byte order, taken to be
little-endian). -/
def unitBytes : Nat → Nat → List Nat
  | 0, _ => []
  | size + 1, u => u % 256 :: unitBytes size (u / 256)

/-- The code unit stored in a run of bytes. -/
def bytesUnit : List Nat → Nat
  | [] => 0
  | b :: bs => b + 256 * bytesUnit bs

/-- The bytes of an array of code units: `reinterpret_cast<const char*>(dst)`. -/
def unitsToBytes (size : Nat) (units : List Nat) : List Nat :=
  units.flatMap (unitBytes size)

/-- The first `n` code units of `size` bytes each held by a byte string:
`reinterpret_cast<const C1*>(string.data())`. -/
def bytesToUnits (size : Nat) (bytes : List Nat) : Nat → List Nat
  | 0 => []
  | n + 1 => bytesUnit (bytes.take size) :: bytesToUnits size (bytes.drop size) n

/-- The type of the array-level functions. -/
abbrev Function :=
  List Nat → Nat → Nat → List Nat → Nat → Nat → Bool → Except detail.UtfError Nat × List Nat

/-- STL wrapper for narrow to wide conversions.  `size1` and `size2` are `sizeof(C1)` and
`sizeof(C2)`; the source allocation is exactly the `srclen` units of the string, starting at
address 0, and the destination is the `malloc`ed block, also starting at address 0, whose
unspecified initial contents are taken to be zeros.  What a `std::string` stores after those
units (an odd trailing byte, the terminator) is not part of the source allocation here, so a
read at `srcEnd` is reported as `MemoryFault`. -/
def toWide (size1 size2 : Nat) (function : Function) (string : List Nat) :
    Except detail.UtfError (List Nat) :=
  let srclen := string.length / size1
  let dstlen := srclen
  let src := bytesToUnits size1 string srclen
  let dst := List.replicate dstlen 0
  match function src 0 srclen dst 0 dstlen true with
  | (.error e, _) => .error e
  | (.ok out, mem) => .ok (unitsToBytes size2 (mem.take out))

/-- STL wrapper for wide to narrow conversions. -/
def toNarrow (size1 size2 : Nat) (function : Function) (string : List Nat) :
    Except detail.UtfError (List Nat) :=
  let srclen := string.length / size1
  let dstlen := srclen * 4
  let src := bytesToUnits size1 string srclen
  let dst := List.replicate dstlen 0
  match function src 0 srclen dst 0 dstlen true with
  | (.error e, _) => .error e
  | (.ok out, mem) => .ok (unitsToBytes size2 (mem.take out))

/-- STL wrapper for utf8To16. -/
def utf8To16 (string : List Nat) : Except detail.UtfError (List Nat) :=
  toWide 1 2 detail.array.utf8To16 string

/-- STL wrapper for utf8To32. -/
def utf8To32 (string : List Nat) : Except detail.UtfError (List Nat) :=
  toWide 1 4 detail.array.utf8To32 string

/-- STL wrapper for utf16To32. -/
def utf16To32 (string : List Nat) : Except detail.UtfError (List Nat) :=
  toWide 2 4 detail.array.utf16To32 string

/-- STL wrapper for utf16To8. -/
def utf16To8 (string : List Nat) : Except detail.UtfError (List Nat) :=
  toNarrow 2 1 detail.array.utf16To8 string

/-- STL wrapper for utf32To8. -/
def utf32To8 (string : List Nat) : Except detail.UtfError (List Nat) :=
  toNarrow 4 1 detail.array.utf32To8 string

/-- STL wrapper for utf32To16. -/
def utf32To16 (string : List Nat) : Except detail.UtfError (List Nat) :=
  toNarrow 4 2 detail.array.utf32To16 string

end utf

/-! ## Specification vocabulary -/

namespace utf

open detail

/-- A Unicode scalar value: in `[0, 0x10FFFF]` and outside the surrogate range. -/
def isScalar (c : Nat) : Prop := c ≤ 0x10FFFF ∧ ¬ (0xD800 ≤ c ∧ c ≤ 0xDFFF)

instance (c : Nat) : Decidable (isScalar c) := by unfold isScalar; infer_instance

/-- A high-surrogate code unit. -/
def isHighSurrogate (u : Nat) : Prop := 0xD800 ≤ u ∧ u ≤ 0xDBFF

instance (u : Nat) : Decidable (isHighSurrogate u) := by unfold isHighSurrogate; infer_instance

/-- A low-surrogate code unit. -/
def isLowSurrogate (u : Nat) : Prop := 0xDC00 ≤ u ∧ u ≤ 0xDFFF

instance (u : Nat) : Decidable (isLowSurrogate u) := by unfold isLowSurrogate; infer_instance

/-- The memory `mem` with the units `bs` stored from index `p` on. -/
def overwrite (mem : List Nat) (p : Nat) (bs : List Nat) : List Nat :=
  mem.take p ++ bs ++ mem.drop (p + bs.length)

/-- The reference UTF-8 encoding of a codepoint up to `0x10FFFF`, in the words of the
specification: one byte below `0x80`, two below `0x800`, three below `0x10000`, four above. -/
def utf8Reference (c : Nat) : List Nat :=
  if c < 0x80 then [c]
  else if c < 0x800 then [0xC0 ||| (c >>> 6), 0x80 ||| (c &&& 0x3F)]
  else if c < 0x10000 then
    [0xE0 ||| (c >>> 12), 0x80 ||| ((c >>> 6) &&& 0x3F), 0x80 ||| (c &&& 0x3F)]
  else
    [0xF0 ||| (c >>> 18), 0x80 ||| ((c >>> 12) &&& 0x3F), 0x80 ||| ((c >>> 6) &&& 0x3F),
      0x80 ||| (c &&& 0x3F)]

/-- The reference UTF-16 encoding of a codepoint up to `0x10FFFF`, in the words of the
specification: a single unit in the Basic Multilingual Plane, a surrogate pair above it. -/
def utf16Reference (c : Nat) : List Nat :=
  if c ≤ 0xFFFF then [c]
  else [((c - 0x10000) >>> 10) + 0xD800, ((c - 0x10000) &&& 0x3FF) + 0xDC00]

/-- A well-formed UTF-8 byte string: the concatenation of the shortest-form encodings of a
sequence of scalar values. -/
def WellFormedUtf8 (s : List Nat) : Prop :=
  ∃ cps : List Nat, (∀ c ∈ cps, isScalar c) ∧ s = cps.flatMap utf8Reference

/-- The check that a sequence of 16-bit units is well formed: every high surrogate is
immediately followed by a low surrogate and no other surrogate unit occurs.  The first argument
tells whether the previous unit was a high surrogate still waiting for its partner. -/
def wellFormedUtf16Aux : Bool → List Nat → Bool
  | pending, [] => !pending
  | true, u :: rest => decide (isLowSurrogate u) && wellFormedUtf16Aux false rest
  | false, u :: rest =>
    if isHighSurrogate u then wellFormedUtf16Aux true rest
    else !decide (isLowSurrogate u) && decide (u < 65536) && wellFormedUtf16Aux false rest

/-- A well-formed UTF-16 unit sequence. -/
def wellFormedUtf16 (s : List Nat) : Bool := wellFormedUtf16Aux false s

/-- Whether every sequence of a byte string has its declared length inside the string.  The
first argument counts the continuation bytes still owed to the sequence in progress; a byte
met with nothing owed is a leading byte and owes its table entry. -/
def sequencesFit : Nat → List Nat → Bool
  | 0, [] => true
  | _ + 1, [] => false
  | 0, b :: rest => sequencesFit (UTF8_BYTES.getD b 0) rest
  | k + 1, _ :: rest => sequencesFit k rest

/-- What it means for a destination capacity `cap` to suffice for a transcoding loop over a
source that ends at `srcEnd`.  The loop ends in one of two ways: it returns normally, with the
read cursor at or past the end of the source and the write cursor within the capacity; or it
raises `IllegalCharacterError`, with the write cursor within the capacity.  So it raises no
`BufferRangeError`, makes no access outside an allocation (`MemoryFault`, which is how a write
past a destination of exactly `cap` units shows), leaves the write cursor at most at `cap`
whatever the allocation, and does not run out of fuel. -/
def CapacitySuffices (res : Except UtfError Unit × array.Cursors) (srcEnd cap : Nat) : Prop :=
  (res.1 = .ok () ∧ srcEnd ≤ res.2.1 ∧ res.2.2.pos ≤ cap) ∨
  (res.1 = .error .IllegalCharacterError ∧ res.2.2.pos ≤ cap)

instance (res : Except UtfError Unit × array.Cursors) (srcEnd cap : Nat) :
    Decidable (CapacitySuffices res srcEnd cap) := by
  unfold CapacitySuffices; infer_instance

end utf
/-! ## Memory lemmas -/

namespace utf

open detail

theorem overwrite_length (mem : List Nat) (p : Nat) (bs : List Nat)
    (h : p + bs.length ≤ mem.length) : (overwrite mem p bs).length = mem.length := by
  simp [overwrite]; omega

theorem overwrite_nil (mem : List Nat) (p : Nat) : overwrite mem p [] = mem := by
  simp [overwrite]

theorem overwrite_set_before (mem : List Nat) (p v : Nat) (bs : List Nat)
    (h : p + 1 + bs.length ≤ mem.length) :
    (overwrite mem (p + 1) bs).set p v = overwrite mem p (v :: bs) := by
  have hp : p < mem.length := by omega
  have e1 : mem.take (p + 1) = mem.take p ++ [mem[p]] := by
    rw [List.take_succ]; simp [List.getElem?_eq_getElem hp]
  unfold overwrite
  rw [e1]
  have hl : (mem.take p).length = p := by simp; omega
  simp only [List.append_assoc, List.singleton_append, List.length_cons]
  rw [List.set_append_right _ _ (by omega)]
  simp [hl]
  congr 1
  omega

theorem overwrite_set_after (mem : List Nat) (p v : Nat) (bs : List Nat)
    (h : p + bs.length + 1 ≤ mem.length) :
    (overwrite mem p bs).set (p + bs.length) v = overwrite mem p (bs ++ [v]) := by
  unfold overwrite
  have hl : (mem.take p ++ bs).length = p + bs.length := by simp; omega
  rw [List.set_append_right _ _ (by omega)]
  simp only [hl, Nat.sub_self, List.append_assoc, List.length_append, List.length_singleton]
  have : mem.drop (p + bs.length) = mem[p + bs.length] :: mem.drop (p + bs.length + 1) := by
    rw [List.drop_eq_getElem_cons]
  rw [this]
  simp [Nat.add_assoc]

theorem overwrite_overwrite (mem : List Nat) (p : Nat) (as bs : List Nat)
    (h : p + as.length + bs.length ≤ mem.length) :
    overwrite (overwrite mem p as) (p + as.length) bs = overwrite mem p (as ++ bs) := by
  unfold overwrite
  have hl : (mem.take p ++ as).length = p + as.length := by simp; omega
  have e1 : (mem.take p ++ as ++ mem.drop (p + as.length)).take (p + as.length)
      = mem.take p ++ as := by
    rw [List.take_append_eq_append_take, hl]; simp
  have e2 : (mem.take p ++ as ++ mem.drop (p + as.length)).drop (p + as.length + bs.length)
      = mem.drop (p + (as ++ bs).length) := by
    rw [List.drop_append_eq_append_drop, hl]
    have : (mem.take p ++ as).drop (p + as.length + bs.length) = [] := by
      apply List.drop_eq_nil_of_le; omega
    rw [this]
    simp [Nat.add_assoc]
  rw [e1, e2]
  simp

theorem drop_overwrite (mem : List Nat) (p : Nat) (bs : List Nat) (h : p ≤ mem.length) :
    (overwrite mem p bs).drop p = bs ++ mem.drop (p + bs.length) := by
  unfold overwrite
  have hl : (mem.take p).length = p := by simp; omega
  rw [List.append_assoc, List.drop_append_eq_append_drop, hl]
  simp

theorem take_overwrite (mem : List Nat) (p : Nat) (bs : List Nat) (h : p ≤ mem.length) :
    (overwrite mem p bs).take (p + bs.length) = mem.take p ++ bs := by
  unfold overwrite
  have hl : (mem.take p ++ bs).length = p + bs.length := by simp; omega
  rw [List.take_append_eq_append_take, hl]
  simp

theorem decWrite_overwrite (mem : List Nat) (p v : Nat) (bs : List Nat)
    (h : p + 1 + bs.length ≤ mem.length) :
    decWrite ⟨overwrite mem (p + 1) bs, p + 1⟩ v = (.ok (), ⟨overwrite mem p (v :: bs), p⟩) := by
  unfold decWrite
  have hl := overwrite_length mem (p + 1) bs h
  simp only [Nat.add_sub_cancel, hl]
  rw [if_pos (by omega), overwrite_set_before mem p v bs h]

theorem writeInc_overwrite (mem : List Nat) (p v : Nat) (bs : List Nat)
    (h : p + bs.length + 1 ≤ mem.length) :
    writeInc ⟨overwrite mem p bs, p + bs.length⟩ v
      = (.ok (), ⟨overwrite mem p (bs ++ [v]), p + bs.length + 1⟩) := by
  unfold writeInc
  have hl := overwrite_length mem p bs (by omega)
  simp only [hl]
  rw [if_pos (by omega), overwrite_set_after mem p v bs h]

theorem writeInc_fresh (mem : List Nat) (p v : Nat) (h : p + 1 ≤ mem.length) :
    writeInc ⟨mem, p⟩ v = (.ok (), ⟨overwrite mem p [v], p + 1⟩) := by
  have := writeInc_overwrite mem p v [] (by simpa using h)
  simpa [overwrite_nil] using this

theorem load_of_drop (mem : List Nat) (p i : Nat) (l : List Nat) (v : Nat)
    (h : mem.drop p = l) (hv : l[i]? = some v) : load mem (p + i) = .ok v := by
  unfold load
  have : mem[p + i]? = some v := by
    rw [← hv, ← h, List.getElem?_drop]
  rw [this]

/-! ## Bit-level lemmas -/

theorem contByte (x : Nat) : UTF8 ((x ||| 0x80) &&& 0xBF) = 128 + x % 64 := by
  unfold UTF8
  have h1 : (x ||| 0x80) &&& 0xBF = ((x % 256) ||| 0x80) &&& 0xBF := by
    apply Nat.eq_of_testBit_eq
    intro i
    simp only [Nat.testBit_and, Nat.testBit_or]
    by_cases hi : i < 8
    · have : (x % 256).testBit i = x.testBit i := by
        rw [show (256:Nat) = 2^8 by norm_num, Nat.testBit_mod_two_pow]; simp [hi]
      rw [this]
    · have : Nat.testBit 0xBF i = false := by
        apply Nat.testBit_lt_two_pow
        calc 0xBF < 2^8 := by norm_num
          _ ≤ 2^i := Nat.pow_le_pow_right (by norm_num) (by omega)
      simp [this]
  rw [h1]
  have h2 : x % 256 < 256 := Nat.mod_lt _ (by norm_num)
  have h3 : x % 64 = (x % 256) % 64 := by omega
  rw [h3]
  generalize x % 256 = y at h2
  clear h1 h3
  interval_cases y <;> rfl

theorem refContByte (x : Nat) : 0x80 ||| (x &&& 0x3F) = 128 + x % 64 := by
  have h1 : x &&& 0x3F = x % 64 := by
    rw [show (0x3F : Nat) = 2 ^ 6 - 1 by norm_num, Nat.and_pow_two_sub_one_eq_mod]
  rw [h1]
  have h2 : x % 64 < 64 := Nat.mod_lt _ (by norm_num)
  generalize x % 64 = y at h2
  interval_cases y <;> rfl

theorem leadByte2 (y : Nat) (h : y < 32) :
    UTF8 (y ||| 0xC0) = 192 + y ∧ 0xC0 ||| y = 192 + y := by
  interval_cases y <;> exact ⟨rfl, rfl⟩

theorem leadByte3 (y : Nat) (h : y < 16) :
    UTF8 (y ||| 0xE0) = 224 + y ∧ 0xE0 ||| y = 224 + y := by
  interval_cases y <;> exact ⟨rfl, rfl⟩

theorem leadByte4 (y : Nat) (h : y < 8) :
    UTF8 (y ||| 0xF0) = 240 + y ∧ 0xF0 ||| y = 240 + y := by
  interval_cases y <;> exact ⟨rfl, rfl⟩

theorem and_mask10 (x : Nat) : x &&& 0x3FF = x % 1024 := by
  rw [show (0x3FF : Nat) = 2 ^ 10 - 1 by norm_num, Nat.and_pow_two_sub_one_eq_mod]

/-- The reference UTF-8 encoding written with division and remainder. -/
theorem utf8Reference_arith (c : Nat) (hc : c ≤ 0x10FFFF) :
    utf8Reference c =
      if c < 0x80 then [c]
      else if c < 0x800 then [192 + c / 64, 128 + c % 64]
      else if c < 0x10000 then [224 + c / 4096, 128 + c / 64 % 64, 128 + c % 64]
      else [240 + c / 262144, 128 + c / 4096 % 64, 128 + c / 64 % 64, 128 + c % 64] := by
  unfold utf8Reference
  simp only [refContByte, Nat.shiftRight_eq_div_pow]
  split_ifs with h1 h2 h3
  · rfl
  · rw [(leadByte2 (c / 2 ^ 6) (by omega)).2]
  · rw [(leadByte3 (c / 2 ^ 12) (by omega)).2]
  · rw [(leadByte4 (c / 2 ^ 18) (by omega)).2]

/-- The reference UTF-16 encoding written with division and remainder. -/
theorem utf16Reference_arith (c : Nat) :
    utf16Reference c =
      if c ≤ 0xFFFF then [c]
      else [0xD800 + (c - 0x10000) / 1024, 0xDC00 + (c - 0x10000) % 1024] := by
  unfold utf16Reference
  simp only [and_mask10, Nat.shiftRight_eq_div_pow]
  split_ifs with h1
  · rfl
  · simp [Nat.add_comm]

theorem utf8Reference_length (c : Nat) :
    1 ≤ (utf8Reference c).length ∧ (utf8Reference c).length ≤ 4 := by
  unfold utf8Reference
  split_ifs <;> simp

theorem utf16Reference_length (c : Nat) :
    1 ≤ (utf16Reference c).length ∧ (utf16Reference c).length ≤ 2 := by
  unfold utf16Reference
  split_ifs <;> simp

theorem utf16Reference_length_le_utf8 (c : Nat) :
    (utf16Reference c).length ≤ (utf8Reference c).length := by
  unfold utf16Reference utf8Reference
  split_ifs <;> simp only [List.length_cons, List.length_nil] <;> omega

/-! ## The lookup table -/

theorem UTF8_BYTES_0 (b : Nat) (h : b < 192) : UTF8_BYTES.getD b 0 = 0 := by
  interval_cases b <;> rfl

theorem UTF8_BYTES_1 (b : Nat) (h : 192 ≤ b) (h2 : b < 224) : UTF8_BYTES.getD b 0 = 1 := by
  interval_cases b <;> rfl

theorem UTF8_BYTES_2 (b : Nat) (h : 224 ≤ b) (h2 : b < 240) : UTF8_BYTES.getD b 0 = 2 := by
  interval_cases b <;> rfl

theorem UTF8_BYTES_3 (b : Nat) (h : 240 ≤ b) (h2 : b < 248) : UTF8_BYTES.getD b 0 = 3 := by
  interval_cases b <;> rfl

theorem UTF8_BYTES_4 (b : Nat) (h : 248 ≤ b) (h2 : b < 252) : UTF8_BYTES.getD b 0 = 4 := by
  interval_cases b <;> rfl

theorem UTF8_BYTES_5 (b : Nat) (h : 252 ≤ b) (h2 : b < 256) : UTF8_BYTES.getD b 0 = 5 := by
  interval_cases b <;> rfl

/-! ## The character-level encoders and decoders on reference encodings -/

theorem utf32To8Case1_run (bytes c : Nat) (mem : List Nat) (p : Nat) (bs : List Nat)
    (h : p + 1 + bs.length ≤ mem.length) :
    character.utf32To8Case1 bytes c ⟨overwrite mem (p + 1) bs, p + 1⟩
      = (.ok (), ⟨overwrite mem p (UTF8 (c ||| FIRST_BYTE_MARK.getD bytes 0) :: bs), p⟩) := by
  unfold character.utf32To8Case1
  rw [decWrite_overwrite mem p _ bs h]

theorem utf32To8Case2_run (bytes c : Nat) (mem : List Nat) (p : Nat) (bs : List Nat)
    (h : p + 2 + bs.length ≤ mem.length) :
    character.utf32To8Case2 bytes c ⟨overwrite mem (p + 2) bs, p + 2⟩
      = (.ok (), ⟨overwrite mem p (UTF8 (c / 64 ||| FIRST_BYTE_MARK.getD bytes 0)
          :: (128 + c % 64) :: bs), p⟩) := by
  unfold character.utf32To8Case2
  rw [decWrite_overwrite mem (p + 1) _ bs (by omega)]
  simp only
  rw [utf32To8Case1_run bytes _ mem p _ (by simp; omega), contByte, Nat.shiftRight_eq_div_pow]

theorem utf32To8Case3_run (bytes c : Nat) (mem : List Nat) (p : Nat) (bs : List Nat)
    (h : p + 3 + bs.length ≤ mem.length) :
    character.utf32To8Case3 bytes c ⟨overwrite mem (p + 3) bs, p + 3⟩
      = (.ok (), ⟨overwrite mem p (UTF8 (c / 64 / 64 ||| FIRST_BYTE_MARK.getD bytes 0)
          :: (128 + c / 64 % 64) :: (128 + c % 64) :: bs), p⟩) := by
  unfold character.utf32To8Case3
  rw [decWrite_overwrite mem (p + 2) _ bs (by omega)]
  simp only
  rw [utf32To8Case2_run bytes _ mem p _ (by simp; omega), contByte, Nat.shiftRight_eq_div_pow]

theorem utf32To8Case4_run (bytes c : Nat) (mem : List Nat) (p : Nat) (bs : List Nat)
    (h : p + 4 + bs.length ≤ mem.length) :
    character.utf32To8Case4 bytes c ⟨overwrite mem (p + 4) bs, p + 4⟩
      = (.ok (), ⟨overwrite mem p (UTF8 (c / 64 / 64 / 64 ||| FIRST_BYTE_MARK.getD bytes 0)
          :: (128 + c / 64 / 64 % 64) :: (128 + c / 64 % 64) :: (128 + c % 64) :: bs), p⟩) := by
  unfold character.utf32To8Case4
  rw [decWrite_overwrite mem (p + 3) _ bs (by omega)]
  simp only
  rw [utf32To8Case3_run bytes _ mem p _ (by simp; omega), contByte, Nat.shiftRight_eq_div_pow]

/-- The 8-bit encoder writes the reference encoding of every codepoint up to `0x10FFFF`. -/
theorem utf32To8_run (c : Nat) (mem : List Nat) (p endp : Nat) (strict : Bool)
    (hc : c ≤ 0x10FFFF) (hroom : p + (utf8Reference c).length ≤ endp)
    (hend : endp ≤ mem.length) :
    character.utf32To8 c ⟨mem, p⟩ endp strict
      = (.ok (), ⟨overwrite mem p (utf8Reference c), p + (utf8Reference c).length⟩) := by
  rw [utf8Reference_arith c hc] at *
  unfold character.utf32To8 character.utf32To8Bytes
  split_ifs at hroom ⊢ with h1 h2 h3
  · simp only [List.length_singleton] at hroom
    simp only [if_neg (show ¬ (p + 1 > endp) by omega), character.utf32To8Switch]
    have := utf32To8Case1_run 1 c mem p [] (by simp; omega)
    rw [overwrite_nil] at this
    rw [this]
    have e : UTF8 (c ||| FIRST_BYTE_MARK.getD 1 0) = c := by
      show (c ||| 0) % 256 = c
      simp; omega
    rw [e]; rfl
  · simp only [List.length_cons, List.length_nil] at hroom
    simp only [if_neg (show ¬ (p + 2 > endp) by omega), character.utf32To8Switch]
    have := utf32To8Case2_run 2 c mem p [] (by simp; omega)
    rw [overwrite_nil] at this
    rw [this]
    have e : UTF8 (c / 64 ||| FIRST_BYTE_MARK.getD 2 0) = 192 + c / 64 :=
      (leadByte2 (c / 64) (by omega)).1
    rw [e]; rfl
  · simp only [List.length_cons, List.length_nil] at hroom
    simp only [if_neg (show ¬ (p + 3 > endp) by omega), character.utf32To8Switch]
    have := utf32To8Case3_run 3 c mem p [] (by simp; omega)
    rw [overwrite_nil] at this
    rw [this]
    have e : UTF8 (c / 64 / 64 ||| FIRST_BYTE_MARK.getD 3 0) = 224 + c / 64 / 64 :=
      (leadByte3 (c / 64 / 64) (by omega)).1
    rw [e, Nat.div_div_eq_div_mul]; rfl
  · simp only [List.length_cons, List.length_nil] at hroom
    simp only [if_neg (show ¬ (p + 4 > endp) by omega), character.utf32To8Switch, if_pos hc]
    have := utf32To8Case4_run 4 c mem p [] (by simp; omega)
    rw [overwrite_nil] at this
    rw [this]
    have e : UTF8 (c / 64 / 64 / 64 ||| FIRST_BYTE_MARK.getD 4 0) = 240 + c / 64 / 64 / 64 :=
      (leadByte4 (c / 64 / 64 / 64) (by omega)).1
    rw [e]
    simp only [Nat.div_div_eq_div_mul]; rfl

/-- The 8-bit decoder reads back the reference encoding of every codepoint up to `0x10FFFF`. -/
theorem utf8To32_run (c : Nat) (mem rest : List Nat) (p endp : Nat) (strict : Bool)
    (hc : c ≤ 0x10FFFF) (hmem : mem.drop p = utf8Reference c ++ rest)
    (hend : p + (utf8Reference c).length ≤ endp) :
    character.utf8To32 mem p endp strict = (.ok c, p + (utf8Reference c).length) := by
  rw [utf8Reference_arith c hc] at *
  unfold character.utf8To32
  split_ifs at hmem hend ⊢ with h1 h2 h3
  · have l0 := load_of_drop mem p 0 _ c hmem (by simp)
    simp only [Nat.add_zero] at l0
    simp only [l0, UTF8_BYTES_0 c (by omega), List.length_singleton] at hend ⊢
    rw [if_neg (by omega)]
    simp only [character.utf8To32Switch, character.utf8To32Case0, l0]
    simp [add32, sub32, UTF8_OFFSETS]
    omega
  · have l0 := load_of_drop mem p 0 _ _ hmem (by simp; rfl)
    have l1 := load_of_drop mem p 1 _ _ hmem (by simp; rfl)
    simp only [Nat.add_zero] at l0
    simp only [l0, UTF8_BYTES_1 (192 + c / 64) (by omega) (by omega), List.length_cons,
      List.length_nil] at hend ⊢
    rw [if_neg (by omega)]
    simp only [character.utf8To32Switch, character.utf8To32Case1, character.utf8To32Case0,
      l0, l1]
    simp [add32, sub32, shl32, UTF8_OFFSETS, Nat.shiftLeft_eq]
    omega
  · have l0 := load_of_drop mem p 0 _ _ hmem (by simp; rfl)
    have l1 := load_of_drop mem p 1 _ _ hmem (by simp; rfl)
    have l2 := load_of_drop mem p 2 _ _ hmem (by simp; rfl)
    simp only [Nat.add_zero] at l0
    simp only [l0, UTF8_BYTES_2 (224 + c / 4096) (by omega) (by omega), List.length_cons,
      List.length_nil] at hend ⊢
    rw [if_neg (by omega)]
    simp only [character.utf8To32Switch, character.utf8To32Case2, character.utf8To32Case1,
      character.utf8To32Case0, l0, l1, l2, Nat.add_assoc]
    simp [add32, sub32, shl32, UTF8_OFFSETS, Nat.shiftLeft_eq]
    omega
  · have l0 := load_of_drop mem p 0 _ _ hmem (by simp; rfl)
    have l1 := load_of_drop mem p 1 _ _ hmem (by simp; rfl)
    have l2 := load_of_drop mem p 2 _ _ hmem (by simp; rfl)
    have l3 := load_of_drop mem p 3 _ _ hmem (by simp; rfl)
    simp only [Nat.add_zero] at l0
    simp only [l0, UTF8_BYTES_3 (240 + c / 262144) (by omega) (by omega), List.length_cons,
      List.length_nil] at hend ⊢
    rw [if_neg (by omega)]
    simp only [character.utf8To32Switch, character.utf8To32Case3, character.utf8To32Case2,
      character.utf8To32Case1, character.utf8To32Case0, l0, l1, l2, l3, Nat.add_assoc]
    simp [add32, sub32, shl32, UTF8_OFFSETS, Nat.shiftLeft_eq]
    omega

/-- The 16-bit encoder writes the reference encoding of every scalar value. -/
theorem utf32To16_run (c : Nat) (mem : List Nat) (p endp : Nat) (strict : Bool)
    (hc : isScalar c) (hroom : p + (utf16Reference c).length ≤ endp)
    (hend : endp ≤ mem.length) :
    character.utf32To16 c ⟨mem, p⟩ endp strict
      = (.ok (), ⟨overwrite mem p (utf16Reference c), p + (utf16Reference c).length⟩) := by
  obtain ⟨hc, hs⟩ := hc
  rw [utf16Reference_arith c] at *
  unfold character.utf32To16
  simp only
  split_ifs at hroom ⊢ with h1 h2 h3 h4
  · omega
  · simp only [List.length_singleton] at hroom
    rw [writeInc_fresh mem p _ (by omega)]
    simp [UTF16, Nat.mod_eq_of_lt (show c < 65536 by omega)]
  · omega
  · simp only [List.length_cons, List.length_nil] at hroom; omega
  · simp only [List.length_cons, List.length_nil] at hroom
    rw [writeInc_fresh mem p _ (by omega)]
    simp only
    have := writeInc_overwrite mem p (UTF16 (add32 (sub32 c 65536 &&& 1023) 56320))
      [UTF16 (add32 (sub32 c 65536 >>> 10) 55296)] (by simp; omega)
    simp only [List.length_singleton] at this
    rw [this]
    have e : sub32 c 65536 = c - 65536 := by unfold sub32; omega
    simp only [e, and_mask10, Nat.shiftRight_eq_div_pow, UTF16, add32]
    have e1 : ((c - 65536) / 2 ^ 10 + 55296) % 4294967296 % 65536
        = 55296 + (c - 65536) / 1024 := by omega
    have e2 : ((c - 65536) % 1024 + 56320) % 4294967296 % 65536
        = 56320 + (c - 65536) % 1024 := by omega
    rw [e1, e2]
    rfl

/-- The 16-bit decoder reads back the reference encoding of every scalar value. -/
theorem utf16To32_run (c : Nat) (mem rest : List Nat) (p endp : Nat) (strict : Bool)
    (hc : isScalar c) (hmem : mem.drop p = utf16Reference c ++ rest) :
    character.utf16To32 mem p endp strict = (.ok c, p + (utf16Reference c).length) := by
  obtain ⟨hc, hs⟩ := hc
  rw [utf16Reference_arith c] at *
  unfold character.utf16To32
  simp only
  split_ifs at hmem ⊢ with h1
  · have l0 := load_of_drop mem p 0 _ c hmem (by simp)
    simp only [Nat.add_zero] at l0
    simp only [l0]
    rw [if_neg (by omega), if_neg (by omega)]
    rfl
  · have l0 := load_of_drop mem p 0 _ _ hmem (by simp; rfl)
    have l1 := load_of_drop mem p 1 _ _ hmem (by simp; rfl)
    simp only [Nat.add_zero] at l0
    simp only [l0, l1]
    rw [if_pos (by omega), if_pos (by omega)]
    simp [add32, sub32, shl32, Nat.shiftLeft_eq]
    omega

end utf

/-! ## Claims about the character-level functions -/

namespace utf

open detail

/-- C4: for every codepoint `c` up to `0x10FFFF` and any strict flags, encoding `c` with the
character-level `utf32To8` into a destination with enough room succeeds, and the character-level
`utf8To32` run over exactly the bytes written (from the old write cursor, bounded by the new one)
returns `c` with its cursor at the end of the written bytes. -/
theorem utf8_encode_decode_roundtrip (c : Nat) (d : Buffer) (endp : Nat) (strict strict2 : Bool)
    (hc : c ≤ 0x10FFFF) (hroom : d.pos + (utf8Reference c).length ≤ endp)
    (hend : endp ≤ d.mem.length) :
    (character.utf32To8 c d endp strict).1 = .ok () ∧
    character.utf8To32 (character.utf32To8 c d endp strict).2.mem d.pos
        (character.utf32To8 c d endp strict).2.pos strict2
      = (.ok c, (character.utf32To8 c d endp strict).2.pos) := by
  obtain ⟨mem, p⟩ := d
  simp only at hroom hend ⊢
  rw [utf32To8_run c mem p endp strict hc hroom hend]
  refine ⟨rfl, ?_⟩
  exact utf8To32_run c _ _ p _ strict2 hc (drop_overwrite mem p _ (by omega)) (le_refl _)

/-- A concrete instance of C4: U+1F600 through a four-byte buffer. -/
theorem utf8_encode_decode_roundtrip_witness :
    (0x1F600 ≤ 0x10FFFF ∧
      (Buffer.mk [0, 0, 0, 0] 0).pos + (utf8Reference 0x1F600).length ≤ 4 ∧
      4 ≤ (Buffer.mk [0, 0, 0, 0] 0).mem.length) ∧
    ((character.utf32To8 0x1F600 ⟨[0, 0, 0, 0], 0⟩ 4 true).1 = .ok () ∧
      character.utf8To32 (character.utf32To8 0x1F600 ⟨[0, 0, 0, 0], 0⟩ 4 true).2.mem
          (Buffer.mk [0, 0, 0, 0] 0).pos
          (character.utf32To8 0x1F600 ⟨[0, 0, 0, 0], 0⟩ 4 true).2.pos false
        = (.ok 0x1F600, (character.utf32To8 0x1F600 ⟨[0, 0, 0, 0], 0⟩ 4 true).2.pos)) :=
  ⟨by decide, utf8_encode_decode_roundtrip 0x1F600 ⟨[0, 0, 0, 0], 0⟩ 4 true false
    (by decide) (by decide) (by decide)⟩

/-- C5: for every scalar value `c`, in strict mode, encoding `c` with the character-level
`utf32To16` into a destination with at least two units of room succeeds, and the character-level
`utf16To32` run over exactly the units written returns `c`; one unit is written when
`c ≤ 0xFFFF`, and a high surrogate followed by a low surrogate when `c ≥ 0x10000`. -/
theorem utf16_encode_decode_roundtrip (c : Nat) (d : Buffer) (endp : Nat)
    (hc : isScalar c) (hroom : d.pos + 2 ≤ endp) (hend : endp ≤ d.mem.length) :
    (character.utf32To16 c d endp true).1 = .ok () ∧
    character.utf16To32 (character.utf32To16 c d endp true).2.mem d.pos
        (character.utf32To16 c d endp true).2.pos true
      = (.ok c, (character.utf32To16 c d endp true).2.pos) ∧
    (c ≤ 0xFFFF → (character.utf32To16 c d endp true).2.pos = d.pos + 1) ∧
    (0x10000 ≤ c → (character.utf32To16 c d endp true).2.pos = d.pos + 2 ∧
      ∃ hi lo, (character.utf32To16 c d endp true).2.mem.drop d.pos
          = hi :: lo :: d.mem.drop (d.pos + 2) ∧
        isHighSurrogate hi ∧ isLowSurrogate lo) := by
  obtain ⟨mem, p⟩ := d
  simp only at hroom hend ⊢
  have hlen := utf16Reference_length c
  rw [utf32To16_run c mem p endp true hc (by omega) hend]
  refine ⟨rfl, ?_, ?_, ?_⟩
  · exact utf16To32_run c _ _ p _ true hc (drop_overwrite mem p _ (by omega))
  · intro h
    simp only [utf16Reference, if_pos h, List.length_singleton]
  · intro h
    simp only
    rw [drop_overwrite mem p _ (by omega), utf16Reference_arith, if_neg (by omega)]
    refine ⟨rfl, _, _, rfl, ?_, ?_⟩
    · unfold isHighSurrogate; have := hc.1; omega
    · unfold isLowSurrogate; omega

/-- A concrete instance of C5: U+1F600 becomes the pair `D83D DE00` and decodes back. -/
theorem utf16_encode_decode_roundtrip_witness :
    (isScalar 0x1F600 ∧ (Buffer.mk [0, 0] 0).pos + 2 ≤ 2 ∧
      2 ≤ (Buffer.mk [0, 0] 0).mem.length) ∧
    ((character.utf32To16 0x1F600 ⟨[0, 0], 0⟩ 2 true).1 = .ok () ∧
    character.utf16To32 (character.utf32To16 0x1F600 ⟨[0, 0], 0⟩ 2 true).2.mem
        (Buffer.mk [0, 0] 0).pos
        (character.utf32To16 0x1F600 ⟨[0, 0], 0⟩ 2 true).2.pos true
      = (.ok 0x1F600, (character.utf32To16 0x1F600 ⟨[0, 0], 0⟩ 2 true).2.pos) ∧
    (0x1F600 ≤ 0xFFFF →
      (character.utf32To16 0x1F600 ⟨[0, 0], 0⟩ 2 true).2.pos = (Buffer.mk [0, 0] 0).pos + 1) ∧
    (0x10000 ≤ 0x1F600 →
      (character.utf32To16 0x1F600 ⟨[0, 0], 0⟩ 2 true).2.pos = (Buffer.mk [0, 0] 0).pos + 2 ∧
      ∃ hi lo, (character.utf32To16 0x1F600 ⟨[0, 0], 0⟩ 2 true).2.mem.drop
            (Buffer.mk [0, 0] 0).pos
          = hi :: lo :: (Buffer.mk [0, 0] 0).mem.drop ((Buffer.mk [0, 0] 0).pos + 2) ∧
        isHighSurrogate hi ∧ isLowSurrogate lo)) :=
  ⟨by decide, utf16_encode_decode_roundtrip 0x1F600 ⟨[0, 0], 0⟩ 2 (by decide) (by decide)
    (by decide)⟩

/-- C6: with the end bound inside the allocation, the character-level `utf32To8` writes the
reference UTF-8 encoding (`utf8Reference`: 1, 2, 3 or 4 bytes by range) of every `c ≤ 0x10FFFF`
when there is room for it, advancing the cursor by the number of bytes written; for
`c > 0x10FFFF` it fails with `IllegalCharacterError` in strict mode and writes `EF BF BD`
(advancing by 3) in lenient mode when there is room for three bytes. -/
theorem utf32To8_matches_reference (c : Nat) (d : Buffer) (endp : Nat) (strict : Bool)
    (hend : endp ≤ d.mem.length) :
    (c ≤ 0x10FFFF → d.pos + (utf8Reference c).length ≤ endp →
      character.utf32To8 c d endp strict
        = (.ok (), ⟨overwrite d.mem d.pos (utf8Reference c),
            d.pos + (utf8Reference c).length⟩)) ∧
    (0x10FFFF < c → strict = true →
      character.utf32To8 c d endp strict = (.error .IllegalCharacterError, d)) ∧
    (0x10FFFF < c → strict = false → d.pos + 3 ≤ endp →
      character.utf32To8 c d endp strict
        = (.ok (), ⟨overwrite d.mem d.pos [0xEF, 0xBF, 0xBD], d.pos + 3⟩)) := by
  obtain ⟨mem, p⟩ := d
  simp only at hend ⊢
  refine ⟨fun hc hroom => utf32To8_run c mem p endp strict hc hroom hend, ?_, ?_⟩
  · intro hc hs
    subst hs
    unfold character.utf32To8 character.utf32To8Bytes
    simp only [checkStrict]
    rw [if_neg (by omega), if_neg (by omega), if_neg (by omega), if_neg (by omega)]
    rfl
  · intro hc hs hroom
    subst hs
    have h := utf32To8_run 0xFFFD mem p endp false (by decide) (by simpa using hroom) hend
    have e : character.utf32To8 c ⟨mem, p⟩ endp false
        = character.utf32To8 0xFFFD ⟨mem, p⟩ endp false := by
      unfold character.utf32To8 character.utf32To8Bytes
      simp only [checkStrict]
      rw [if_neg (by omega), if_neg (by omega), if_neg (by omega), if_neg (by omega)]
      rfl
    rw [e, h]
    rfl

/-- A concrete instance of C6 on a four-byte buffer. -/
theorem utf32To8_matches_reference_witness :
    4 ≤ (Buffer.mk [7, 7, 7, 7] 0).mem.length ∧
    ((0x1F600 ≤ 0x10FFFF → (Buffer.mk [7, 7, 7, 7] 0).pos + (utf8Reference 0x1F600).length ≤ 4 →
      character.utf32To8 0x1F600 ⟨[7, 7, 7, 7], 0⟩ 4 true
        = (.ok (), ⟨overwrite (Buffer.mk [7, 7, 7, 7] 0).mem (Buffer.mk [7, 7, 7, 7] 0).pos
              (utf8Reference 0x1F600),
            (Buffer.mk [7, 7, 7, 7] 0).pos + (utf8Reference 0x1F600).length⟩)) ∧
    (0x10FFFF < 0x1F600 → true = true →
      character.utf32To8 0x1F600 ⟨[7, 7, 7, 7], 0⟩ 4 true
        = (.error .IllegalCharacterError, ⟨[7, 7, 7, 7], 0⟩)) ∧
    (0x10FFFF < 0x1F600 → true = false → (Buffer.mk [7, 7, 7, 7] 0).pos + 3 ≤ 4 →
      character.utf32To8 0x1F600 ⟨[7, 7, 7, 7], 0⟩ 4 true
        = (.ok (), ⟨overwrite (Buffer.mk [7, 7, 7, 7] 0).mem (Buffer.mk [7, 7, 7, 7] 0).pos
              [0xEF, 0xBF, 0xBD], (Buffer.mk [7, 7, 7, 7] 0).pos + 3⟩))) :=
  ⟨by decide, utf32To8_matches_reference 0x1F600 ⟨[7, 7, 7, 7], 0⟩ 4 true (by decide)⟩

/-- C8: the character-level `utf16To32` on a lone high surrogate.  On the one-unit input
`[0xD800]` with the bound right after it, the decoder reads the unit at the bound: with nothing
allocated there the read is a memory fault, in strict and in lenient mode, and when the memory
after the bound holds `0xDC00` the strict decoder returns `0x10000` with its cursor past the
bound.  In neither case does it fail with `IllegalCharacterError` or return U+FFFD. -/
theorem utf16To32_lone_high_surrogate :
    character.utf16To32 [0xD800] 0 1 true = (.error .MemoryFault, 1) ∧
    character.utf16To32 [0xD800] 0 1 false = (.error .MemoryFault, 1) ∧
    character.utf16To32 [0xD800, 0xDC00] 0 1 true = (.ok 0x10000, 2) ∧
    character.utf16To32 [0xD800, 0xDC00] 0 1 false = (.ok 0x10000, 2) := by
  decide

/-- Unmatched surrogates that the decoder can see: a low surrogate in first position, and a
high surrogate followed inside the allocation by a unit that is not a low surrogate, go through
`checkStrict`. -/
theorem utf16To32_unmatched_in_memory (src : List Nat) (begin endp u : Nat) (strict : Bool)
    (hu : src[begin]? = some u) :
    (isLowSurrogate u →
      character.utf16To32 src begin endp strict = (checkStrict strict, begin + 1)) ∧
    (isHighSurrogate u → ∀ v, src[begin + 1]? = some v → ¬ isLowSurrogate v →
      character.utf16To32 src begin endp strict = (checkStrict strict, begin + 2)) := by
  unfold isLowSurrogate isHighSurrogate
  constructor
  · intro h
    unfold character.utf16To32 load
    simp only [hu]
    rw [if_neg (by omega), if_pos (by omega)]
  · intro h v hv hl
    unfold character.utf16To32 load
    simp only [hu, hv]
    rw [if_pos (by omega), if_neg (by omega)]

/-- C9: when the byte under the cursor has table entry `k` and fewer than `k` bytes remain after
it before the end-of-input bound, the strict character-level `utf8To32` fails with
`IllegalCharacterError` and leaves the cursor where it was. -/
theorem utf8To32_truncated_fails (src : List Nat) (begin endp b : Nat)
    (hb : src[begin]? = some b) (hk : endp - (begin + 1) < UTF8_BYTES.getD b 0) :
    character.utf8To32 src begin endp true = (.error .IllegalCharacterError, begin) := by
  unfold character.utf8To32 load
  simp only [hb]
  rw [if_pos (by omega)]

/-- A concrete instance of C9: the leading byte `0xF0` followed by a single byte. -/
theorem utf8To32_truncated_fails_witness :
    (([0xF0, 0x9F] : List Nat)[0]? = some 0xF0 ∧ 2 - (0 + 1) < UTF8_BYTES.getD 0xF0 0) ∧
    character.utf8To32 [0xF0, 0x9F] 0 2 true = (.error .IllegalCharacterError, 0) :=
  ⟨by decide, utf8To32_truncated_fails [0xF0, 0x9F] 0 2 0xF0 (by decide) (by decide)⟩

/-- C10: the lenient character-level `utf8To32` on the complete-looking input
`F8 80 80 80 80` (table entry 4) returns neither an error nor U+FFFD: the replacement value
fetched from `checkStrict` is shifted and the following bytes and the bias are folded into it,
giving `0x6E00000` with the cursor advanced by 4; likewise `FC 80 80 80 80 80` (table entry 5)
gives `0x7EF00000`. -/
theorem utf8To32_lenient_invalid_lead :
    character.utf8To32 [0xF8, 0x80, 0x80, 0x80, 0x80] 0 5 false = (.ok 0x6E00000, 4) ∧
    character.utf8To32 [0xFC, 0x80, 0x80, 0x80, 0x80, 0x80] 0 6 false = (.ok 0x7EF00000, 4) := by
  decide

/-- In strict mode a leading byte in `0xF8..0xFF` (table entry 4 or 5) always fails with
`IllegalCharacterError`, whether or not enough bytes follow it. -/
theorem utf8To32_strict_invalid_lead (src : List Nat) (begin endp b : Nat)
    (hb : src[begin]? = some b) (h1 : 0xF8 ≤ b) (h2 : b ≤ 0xFF) :
    character.utf8To32 src begin endp true = (.error .IllegalCharacterError, begin) := by
  unfold character.utf8To32 load
  simp only [hb]
  by_cases h : begin + UTF8_BYTES.getD b 0 ≥ endp
  · rw [if_pos h]
  · rw [if_neg h]
    by_cases h3 : b < 252
    · rw [UTF8_BYTES_4 b h1 h3]; rfl
    · rw [UTF8_BYTES_5 b (by omega) (by omega)]; rfl

end utf

/-! ## The transcoding loop on a sequence of encoded scalar values -/

namespace utf

open detail

theorem flatMap_length_pos_le (f : Nat → List Nat) (xs : List Nat)
    (h : ∀ x ∈ xs, 1 ≤ (f x).length) : xs.length ≤ (xs.flatMap f).length := by
  induction xs with
  | nil => simp
  | cons x xs ih =>
    have h1 := h x (List.mem_cons_self _ _)
    have h2 := ih (fun y hy => h y (List.mem_cons_of_mem _ hy))
    simp only [List.flatMap_cons, List.length_append, List.length_cons]
    omega

theorem flatMap_length_le_mul (f g : Nat → List Nat) (k : Nat) (xs : List Nat)
    (h : ∀ x ∈ xs, (f x).length ≤ k * (g x).length) :
    (xs.flatMap f).length ≤ k * (xs.flatMap g).length := by
  induction xs with
  | nil => simp
  | cons x xs ih =>
    have h1 := h x (List.mem_cons_self _ _)
    have h2 := ih (fun y hy => h y (List.mem_cons_of_mem _ hy))
    simp only [List.flatMap_cons, List.length_append, Nat.mul_add]
    omega

/-- A loop whose body decodes one encoded item and stores its re-encoding runs through a whole
sequence of items and stops with the source consumed. -/
theorem whileLoop_run (body : Nat → Buffer → Except UtfError Unit × array.Cursors)
    (src : List Nat) (srcEnd dstEnd : Nat) (encS encD : Nat → List Nat) (valid : Nat → Prop)
    (hsrcEnd : srcEnd = src.length)
    (hS : ∀ x, valid x → 1 ≤ (encS x).length) (hD : ∀ x, valid x → 1 ≤ (encD x).length)
    (hbody : ∀ x p rest dmem q, valid x → src.drop p = encS x ++ rest →
        q + (encD x).length ≤ dstEnd → dstEnd ≤ dmem.length →
        body p ⟨dmem, q⟩
          = (.ok (), (p + (encS x).length,
              ⟨overwrite dmem q (encD x), q + (encD x).length⟩)))
    (xs : List Nat) (hxs : ∀ x ∈ xs, valid x) (fuel p : Nat) (dmem : List Nat) (q : Nat)
    (hfuel : xs.length ≤ fuel) (hp : p ≤ srcEnd)
    (hsrc : src.drop p = xs.flatMap encS)
    (hroom : q + (xs.flatMap encD).length ≤ dstEnd) (hdst : dstEnd ≤ dmem.length) :
    array.whileLoop body srcEnd dstEnd fuel p ⟨dmem, q⟩
      = (.ok (), (srcEnd,
          ⟨overwrite dmem q (xs.flatMap encD), q + (xs.flatMap encD).length⟩)) := by
  induction xs generalizing fuel p dmem q with
  | nil =>
    simp only [List.flatMap_nil, List.drop_eq_nil_iff] at hsrc
    have hpe : p = srcEnd := by omega
    subst hpe
    cases fuel <;> simp [array.whileLoop, overwrite_nil]
  | cons x xs ih =>
    have hv := hxs x (List.mem_cons_self _ _)
    have hxs2 : ∀ y ∈ xs, valid y := fun y hy => hxs y (List.mem_cons_of_mem _ hy)
    have hs1 := hS x hv
    have hd1 := hD x hv
    simp only [List.flatMap_cons, List.length_append] at hsrc hroom ⊢
    have hlen : (src.drop p).length = (encS x).length + (xs.flatMap encS).length := by
      rw [hsrc, List.length_append]
    rw [List.length_drop] at hlen
    obtain ⟨fuel, rfl⟩ : ∃ f, fuel = f + 1 := ⟨fuel - 1, by simp at hfuel; omega⟩
    unfold array.whileLoop
    rw [if_pos ⟨by omega, by simp only; omega⟩]
    rw [hbody x p _ dmem q hv hsrc (by omega) hdst]
    simp only
    have hsrc2 : src.drop (p + (encS x).length) = xs.flatMap encS := by
      rw [← List.drop_drop, hsrc, List.drop_left]
    have hdl := overwrite_length dmem q (encD x) (by omega)
    rw [ih hxs2 fuel (p + (encS x).length) _ _ (by simp at hfuel; omega) (by omega) hsrc2
      (by omega) (by omega)]
    rw [overwrite_overwrite dmem q _ _ (by omega), Nat.add_assoc]

end utf

/-! ## The six loop bodies on reference encodings -/

namespace utf

open detail

theorem flatMap_unit (xs : List Nat) : xs.flatMap (fun c => [c]) = xs := by
  induction xs with
  | nil => rfl
  | cons x xs ih => simp only [List.flatMap_cons, ih, List.singleton_append]

theorem drop_length_bound (src : List Nat) (p : Nat) (l rest : List Nat)
    (h : src.drop p = l ++ rest) (hl : 1 ≤ l.length) : p + l.length ≤ src.length := by
  have := congrArg List.length h
  rw [List.length_drop, List.length_append] at this
  omega

theorem isScalar_lt (c : Nat) (h : isScalar c) : c < 4294967296 := by
  unfold isScalar at h; omega

theorem utf8To32Body_run (src : List Nat) (strict : Bool) (dstEnd c p : Nat) (rest dmem : List Nat)
    (q : Nat) (hc : isScalar c) (hsrc : src.drop p = utf8Reference c ++ rest)
    (hroom : q + 1 ≤ dstEnd) (hdst : dstEnd ≤ dmem.length) :
    array.utf8To32Body src src.length strict p ⟨dmem, q⟩
      = (.ok (), (p + (utf8Reference c).length, ⟨overwrite dmem q [c], q + 1⟩)) := by
  unfold array.utf8To32Body
  rw [utf8To32_run c src rest p src.length strict hc.1 hsrc
    (drop_length_bound src p _ rest hsrc (utf8Reference_length c).1)]
  simp only
  rw [writeInc_fresh dmem q _ (by omega)]
  simp only [UTF32, Nat.mod_eq_of_lt (isScalar_lt c hc)]

theorem utf32To8Body_run (src : List Nat) (strict : Bool) (dstEnd c p : Nat) (rest dmem : List Nat)
    (q : Nat) (hc : isScalar c) (hsrc : src.drop p = [c] ++ rest)
    (hroom : q + (utf8Reference c).length ≤ dstEnd) (hdst : dstEnd ≤ dmem.length) :
    array.utf32To8Body src dstEnd strict p ⟨dmem, q⟩
      = (.ok (), (p + 1, ⟨overwrite dmem q (utf8Reference c), q + (utf8Reference c).length⟩)) := by
  unfold array.utf32To8Body
  have l0 := load_of_drop src p 0 _ c hsrc (by simp)
  simp only [Nat.add_zero] at l0
  rw [l0]
  simp only
  rw [utf32To8_run c dmem q dstEnd strict hc.1 hroom hdst]

theorem utf8To16Body_run (src : List Nat) (strict : Bool) (dstEnd c p : Nat) (rest dmem : List Nat)
    (q : Nat) (hc : isScalar c) (hsrc : src.drop p = utf8Reference c ++ rest)
    (hroom : q + (utf16Reference c).length ≤ dstEnd) (hdst : dstEnd ≤ dmem.length) :
    array.utf8To16Body src src.length dstEnd strict p ⟨dmem, q⟩
      = (.ok (), (p + (utf8Reference c).length,
          ⟨overwrite dmem q (utf16Reference c), q + (utf16Reference c).length⟩)) := by
  unfold array.utf8To16Body
  rw [utf8To32_run c src rest p src.length strict hc.1 hsrc
    (drop_length_bound src p _ rest hsrc (utf8Reference_length c).1)]
  simp only
  rw [utf32To16_run c dmem q dstEnd strict hc hroom hdst]

theorem utf16To8Body_run (src : List Nat) (strict : Bool) (dstEnd c p : Nat) (rest dmem : List Nat)
    (q : Nat) (hc : isScalar c) (hsrc : src.drop p = utf16Reference c ++ rest)
    (hroom : q + (utf8Reference c).length ≤ dstEnd) (hdst : dstEnd ≤ dmem.length) :
    array.utf16To8Body src src.length dstEnd strict p ⟨dmem, q⟩
      = (.ok (), (p + (utf16Reference c).length,
          ⟨overwrite dmem q (utf8Reference c), q + (utf8Reference c).length⟩)) := by
  unfold array.utf16To8Body
  rw [utf16To32_run c src rest p src.length strict hc hsrc]
  simp only
  rw [utf32To8_run c dmem q dstEnd strict hc.1 hroom hdst]

theorem utf16To32Body_run (src : List Nat) (strict : Bool) (dstEnd c p : Nat) (rest dmem : List Nat)
    (q : Nat) (hc : isScalar c) (hsrc : src.drop p = utf16Reference c ++ rest)
    (hroom : q + 1 ≤ dstEnd) (hdst : dstEnd ≤ dmem.length) :
    array.utf16To32Body src src.length strict p ⟨dmem, q⟩
      = (.ok (), (p + (utf16Reference c).length, ⟨overwrite dmem q [c], q + 1⟩)) := by
  unfold array.utf16To32Body
  rw [utf16To32_run c src rest p src.length strict hc hsrc]
  simp only
  rw [writeInc_fresh dmem q _ (by omega)]
  simp only [UTF32, Nat.mod_eq_of_lt (isScalar_lt c hc)]

theorem utf32To16Body_run (src : List Nat) (strict : Bool) (dstEnd c p : Nat) (rest dmem : List Nat)
    (q : Nat) (hc : isScalar c) (hsrc : src.drop p = [c] ++ rest)
    (hroom : q + (utf16Reference c).length ≤ dstEnd) (hdst : dstEnd ≤ dmem.length) :
    array.utf32To16Body src dstEnd strict p ⟨dmem, q⟩
      = (.ok (), (p + 1,
          ⟨overwrite dmem q (utf16Reference c), q + (utf16Reference c).length⟩)) := by
  unfold array.utf32To16Body
  have l0 := load_of_drop src p 0 _ c hsrc (by simp)
  simp only [Nat.add_zero] at l0
  rw [l0]
  simp only
  rw [utf32To16_run c dmem q dstEnd strict hc hroom hdst]

/-! ## The array-level functions on reference encodings -/

theorem array_utf8To32_run (cps dmem : List Nat) (dstEnd : Nat) (strict : Bool)
    (hv : ∀ c ∈ cps, isScalar c) (hroom : cps.length ≤ dstEnd) (hdst : dstEnd ≤ dmem.length) :
    array.utf8To32Loop (cps.flatMap utf8Reference) 0 (cps.flatMap utf8Reference).length
        dmem 0 dstEnd strict
      = (.ok (), ((cps.flatMap utf8Reference).length, ⟨overwrite dmem 0 cps, cps.length⟩)) := by
  unfold array.utf8To32Loop
  have h := whileLoop_run
    (array.utf8To32Body (cps.flatMap utf8Reference) (cps.flatMap utf8Reference).length strict)
    (cps.flatMap utf8Reference) (cps.flatMap utf8Reference).length dstEnd utf8Reference
    (fun c => [c]) isScalar rfl (fun x _ => (utf8Reference_length x).1) (fun _ _ => le_refl _)
    (fun x p rest dm q hx hs hr hd => utf8To32Body_run _ strict dstEnd x p rest dm q hx hs hr hd)
    cps hv ((cps.flatMap utf8Reference).length - 0) 0 dmem 0
    (by
      have := flatMap_length_pos_le utf8Reference cps (fun x _ => (utf8Reference_length x).1)
      omega)
    (Nat.zero_le _) rfl (by rw [flatMap_unit]; omega) hdst
  rw [flatMap_unit] at h
  simpa using h

end utf

namespace utf

open detail

theorem array_utf32To8_run (cps dmem : List Nat) (dstEnd : Nat) (strict : Bool)
    (hv : ∀ c ∈ cps, isScalar c) (hroom : (cps.flatMap utf8Reference).length ≤ dstEnd)
    (hdst : dstEnd ≤ dmem.length) :
    array.utf32To8Loop cps 0 cps.length dmem 0 dstEnd strict
      = (.ok (), (cps.length, ⟨overwrite dmem 0 (cps.flatMap utf8Reference),
          (cps.flatMap utf8Reference).length⟩)) := by
  unfold array.utf32To8Loop
  have h := whileLoop_run (array.utf32To8Body cps dstEnd strict) cps cps.length dstEnd
    (fun c => [c]) utf8Reference isScalar rfl (fun _ _ => le_refl _)
    (fun x _ => (utf8Reference_length x).1)
    (fun x p rest dm q hx hs hr hd => utf32To8Body_run _ strict dstEnd x p rest dm q hx hs hr hd)
    cps hv (cps.length - 0) 0 dmem 0 (by omega) (Nat.zero_le _)
    (by rw [flatMap_unit]; rfl) (by omega) hdst
  simpa using h

theorem array_utf8To16_run (cps dmem : List Nat) (dstEnd : Nat) (strict : Bool)
    (hv : ∀ c ∈ cps, isScalar c) (hroom : (cps.flatMap utf16Reference).length ≤ dstEnd)
    (hdst : dstEnd ≤ dmem.length) :
    array.utf8To16Loop (cps.flatMap utf8Reference) 0 (cps.flatMap utf8Reference).length
        dmem 0 dstEnd strict
      = (.ok (), ((cps.flatMap utf8Reference).length,
          ⟨overwrite dmem 0 (cps.flatMap utf16Reference),
            (cps.flatMap utf16Reference).length⟩)) := by
  unfold array.utf8To16Loop
  have h := whileLoop_run
    (array.utf8To16Body (cps.flatMap utf8Reference) (cps.flatMap utf8Reference).length dstEnd
      strict)
    (cps.flatMap utf8Reference) (cps.flatMap utf8Reference).length dstEnd utf8Reference
    utf16Reference isScalar rfl (fun x _ => (utf8Reference_length x).1)
    (fun x _ => (utf16Reference_length x).1)
    (fun x p rest dm q hx hs hr hd => utf8To16Body_run _ strict dstEnd x p rest dm q hx hs hr hd)
    cps hv ((cps.flatMap utf8Reference).length - 0) 0 dmem 0
    (by
      have := flatMap_length_pos_le utf8Reference cps (fun x _ => (utf8Reference_length x).1)
      omega)
    (Nat.zero_le _) rfl (by omega) hdst
  simpa using h

theorem array_utf16To8_run (cps dmem : List Nat) (dstEnd : Nat) (strict : Bool)
    (hv : ∀ c ∈ cps, isScalar c) (hroom : (cps.flatMap utf8Reference).length ≤ dstEnd)
    (hdst : dstEnd ≤ dmem.length) :
    array.utf16To8Loop (cps.flatMap utf16Reference) 0 (cps.flatMap utf16Reference).length
        dmem 0 dstEnd strict
      = (.ok (), ((cps.flatMap utf16Reference).length,
          ⟨overwrite dmem 0 (cps.flatMap utf8Reference),
            (cps.flatMap utf8Reference).length⟩)) := by
  unfold array.utf16To8Loop
  have h := whileLoop_run
    (array.utf16To8Body (cps.flatMap utf16Reference) (cps.flatMap utf16Reference).length dstEnd
      strict)
    (cps.flatMap utf16Reference) (cps.flatMap utf16Reference).length dstEnd utf16Reference
    utf8Reference isScalar rfl (fun x _ => (utf16Reference_length x).1)
    (fun x _ => (utf8Reference_length x).1)
    (fun x p rest dm q hx hs hr hd => utf16To8Body_run _ strict dstEnd x p rest dm q hx hs hr hd)
    cps hv ((cps.flatMap utf16Reference).length - 0) 0 dmem 0
    (by
      have := flatMap_length_pos_le utf16Reference cps (fun x _ => (utf16Reference_length x).1)
      omega)
    (Nat.zero_le _) rfl (by omega) hdst
  simpa using h

theorem array_utf16To32_run (cps dmem : List Nat) (dstEnd : Nat) (strict : Bool)
    (hv : ∀ c ∈ cps, isScalar c) (hroom : cps.length ≤ dstEnd) (hdst : dstEnd ≤ dmem.length) :
    array.utf16To32Loop (cps.flatMap utf16Reference) 0 (cps.flatMap utf16Reference).length
        dmem 0 dstEnd strict
      = (.ok (), ((cps.flatMap utf16Reference).length, ⟨overwrite dmem 0 cps, cps.length⟩)) := by
  unfold array.utf16To32Loop
  have h := whileLoop_run
    (array.utf16To32Body (cps.flatMap utf16Reference) (cps.flatMap utf16Reference).length strict)
    (cps.flatMap utf16Reference) (cps.flatMap utf16Reference).length dstEnd utf16Reference
    (fun c => [c]) isScalar rfl (fun x _ => (utf16Reference_length x).1) (fun _ _ => le_refl _)
    (fun x p rest dm q hx hs hr hd => utf16To32Body_run _ strict dstEnd x p rest dm q hx hs hr hd)
    cps hv ((cps.flatMap utf16Reference).length - 0) 0 dmem 0
    (by
      have := flatMap_length_pos_le utf16Reference cps (fun x _ => (utf16Reference_length x).1)
      omega)
    (Nat.zero_le _) rfl (by rw [flatMap_unit]; omega) hdst
  rw [flatMap_unit] at h
  simpa using h

theorem array_utf32To16_run (cps dmem : List Nat) (dstEnd : Nat) (strict : Bool)
    (hv : ∀ c ∈ cps, isScalar c) (hroom : (cps.flatMap utf16Reference).length ≤ dstEnd)
    (hdst : dstEnd ≤ dmem.length) :
    array.utf32To16Loop cps 0 cps.length dmem 0 dstEnd strict
      = (.ok (), (cps.length, ⟨overwrite dmem 0 (cps.flatMap utf16Reference),
          (cps.flatMap utf16Reference).length⟩)) := by
  unfold array.utf32To16Loop
  have h := whileLoop_run (array.utf32To16Body cps dstEnd strict) cps cps.length dstEnd
    (fun c => [c]) utf16Reference isScalar rfl (fun _ _ => le_refl _)
    (fun x _ => (utf16Reference_length x).1)
    (fun x p rest dm q hx hs hr hd => utf32To16Body_run _ strict dstEnd x p rest dm q hx hs hr hd)
    cps hv (cps.length - 0) 0 dmem 0 (by omega) (Nat.zero_le _)
    (by rw [flatMap_unit]; rfl) (by omega) hdst
  simpa using h

/-! ## Byte strings and arrays of code units -/

theorem unitBytes_length (size u : Nat) : (unitBytes size u).length = size := by
  induction size generalizing u with
  | zero => rfl
  | succ n ih => simp [unitBytes, ih]

theorem bytesUnit_unitBytes (size u : Nat) (h : u < 256 ^ size) :
    bytesUnit (unitBytes size u) = u := by
  induction size generalizing u with
  | zero => simp at h; subst h; rfl
  | succ n ih =>
    have : u / 256 < 256 ^ n := by
      rw [Nat.div_lt_iff_lt_mul (by norm_num)]
      rw [pow_succ] at h
      exact h
    simp only [unitBytes, bytesUnit, ih _ this]
    omega

theorem unitsToBytes_length (size : Nat) (us : List Nat) :
    (unitsToBytes size us).length = size * us.length := by
  induction us with
  | nil => rfl
  | cons u us ih =>
    simp only [unitsToBytes, List.flatMap_cons, List.length_append, unitBytes_length,
      List.length_cons] at ih ⊢
    rw [ih, Nat.mul_succ, Nat.add_comm]

theorem bytesToUnits_unitsToBytes (size : Nat) (us : List Nat)
    (h : ∀ u ∈ us, u < 256 ^ size) :
    bytesToUnits size (unitsToBytes size us) us.length = us := by
  induction us with
  | nil => rfl
  | cons u us ih =>
    have h1 := h u (List.mem_cons_self _ _)
    have h2 := ih (fun y hy => h y (List.mem_cons_of_mem _ hy))
    have e : unitsToBytes size (u :: us) = unitBytes size u ++ unitsToBytes size us := by
      simp [unitsToBytes]
    have hl := unitBytes_length size u
    simp only [List.length_cons, bytesToUnits, e]
    rw [List.take_left' hl, List.drop_left' hl, bytesUnit_unitBytes size u h1, h2]

theorem unitsToBytes_one (us : List Nat) (h : ∀ u ∈ us, u < 256) : unitsToBytes 1 us = us := by
  induction us with
  | nil => rfl
  | cons u us ih =>
    have h1 := h u (List.mem_cons_self _ _)
    have h2 := ih (fun y hy => h y (List.mem_cons_of_mem _ hy))
    have e : unitsToBytes 1 (u :: us) = unitBytes 1 u ++ unitsToBytes 1 us := by
      simp [unitsToBytes]
    rw [e, h2]
    simp only [unitBytes, Nat.mod_eq_of_lt h1, List.singleton_append]

theorem bytesToUnits_one (bs : List Nat) (h : ∀ u ∈ bs, u < 256) :
    bytesToUnits 1 bs bs.length = bs := by
  have := bytesToUnits_unitsToBytes 1 bs (by simpa using h)
  rwa [unitsToBytes_one bs h] at this

theorem utf8Reference_byte (c : Nat) (hc : c ≤ 0x10FFFF) : ∀ b ∈ utf8Reference c, b < 256 := by
  rw [utf8Reference_arith c hc]
  split_ifs <;> simp <;> omega

theorem utf16Reference_unit (c : Nat) (hc : c ≤ 0x10FFFF) :
    ∀ u ∈ utf16Reference c, u < 65536 := by
  rw [utf16Reference_arith c]
  split_ifs <;> simp <;> omega

theorem utf8_bytes (cps : List Nat) (hv : ∀ c ∈ cps, isScalar c) :
    ∀ b ∈ cps.flatMap utf8Reference, b < 256 := by
  intro b hb
  rw [List.mem_flatMap] at hb
  obtain ⟨c, hc, hbc⟩ := hb
  exact utf8Reference_byte c (hv c hc).1 b hbc

theorem utf16_units (cps : List Nat) (hv : ∀ c ∈ cps, isScalar c) :
    ∀ u ∈ cps.flatMap utf16Reference, u < 256 ^ 2 := by
  intro b hb
  rw [List.mem_flatMap] at hb
  obtain ⟨c, hc, hbc⟩ := hb
  exact utf16Reference_unit c (hv c hc).1 b hbc

theorem utf32_units (cps : List Nat) (hv : ∀ c ∈ cps, isScalar c) :
    ∀ u ∈ cps, u < 256 ^ 4 := by
  intro c hc
  exact isScalar_lt c (hv c hc)

theorem take_overwrite_zero (n : Nat) (out : List Nat) :
    (overwrite (List.replicate n 0) 0 out).take out.length = out := by
  have := take_overwrite (List.replicate n 0) 0 out (Nat.zero_le _)
  simpa using this

end utf

/-! ## The entry points on reference encodings -/

namespace utf

open detail

theorem utf8_length_le_four (cps : List Nat) :
    (cps.flatMap utf8Reference).length ≤ cps.length * 4 := by
  have := flatMap_length_le_mul utf8Reference (fun c => [c]) 4 cps
    (fun x _ => by simpa using (utf8Reference_length x).2)
  rw [flatMap_unit] at this
  omega

theorem utf16_length_le_four (cps : List Nat) :
    (cps.flatMap utf16Reference).length ≤ cps.length * 4 := by
  have := flatMap_length_le_mul utf16Reference (fun c => [c]) 4 cps
    (fun x _ => by have := (utf16Reference_length x).2; simp; omega)
  rw [flatMap_unit] at this
  omega

theorem utf16_length_le_utf8 (cps : List Nat) :
    (cps.flatMap utf16Reference).length ≤ (cps.flatMap utf8Reference).length := by
  have := flatMap_length_le_mul utf16Reference utf8Reference 1 cps
    (fun x _ => by have := utf16Reference_length_le_utf8 x; omega)
  omega

theorem utf8_length_le_four_utf16 (cps : List Nat) :
    (cps.flatMap utf8Reference).length ≤ (cps.flatMap utf16Reference).length * 4 := by
  have := flatMap_length_le_mul utf8Reference utf16Reference 4 cps
    (fun x _ => by
      have := (utf8Reference_length x).2
      have := (utf16Reference_length x).1
      omega)
  omega

/-- The entry point `utf8To32` on the encoding of a sequence of scalar values. -/
theorem entry_utf8To32 (cps : List Nat) (hv : ∀ c ∈ cps, isScalar c) :
    utf.utf8To32 (cps.flatMap utf8Reference) = .ok (unitsToBytes 4 cps) := by
  unfold utf.utf8To32 toWide array.utf8To32
  simp only [Nat.div_one]
  rw [bytesToUnits_one _ (utf8_bytes cps hv)]
  rw [array_utf8To32_run cps _ _ true hv
    (flatMap_length_pos_le utf8Reference cps (fun x _ => (utf8Reference_length x).1))
    (by simp)]
  simp only [array.written, Nat.sub_zero]
  rw [take_overwrite_zero]

/-- The entry point `utf32To8` on a sequence of scalar values. -/
theorem entry_utf32To8 (cps : List Nat) (hv : ∀ c ∈ cps, isScalar c) :
    utf.utf32To8 (unitsToBytes 4 cps) = .ok (cps.flatMap utf8Reference) := by
  unfold utf.utf32To8 toNarrow array.utf32To8
  simp only [unitsToBytes_length]
  rw [Nat.mul_div_cancel_left _ (by norm_num : 0 < 4)]
  rw [bytesToUnits_unitsToBytes 4 cps (utf32_units cps hv)]
  rw [array_utf32To8_run cps _ _ true hv (utf8_length_le_four cps) (by simp)]
  simp only [array.written, Nat.sub_zero]
  rw [take_overwrite_zero, unitsToBytes_one _ (utf8_bytes cps hv)]

/-- The entry point `utf8To16` on the encoding of a sequence of scalar values. -/
theorem entry_utf8To16 (cps : List Nat) (hv : ∀ c ∈ cps, isScalar c) :
    utf.utf8To16 (cps.flatMap utf8Reference)
      = .ok (unitsToBytes 2 (cps.flatMap utf16Reference)) := by
  unfold utf.utf8To16 toWide array.utf8To16
  simp only [Nat.div_one]
  rw [bytesToUnits_one _ (utf8_bytes cps hv)]
  rw [array_utf8To16_run cps _ _ true hv (utf16_length_le_utf8 cps) (by simp)]
  simp only [array.written, Nat.sub_zero]
  rw [take_overwrite_zero]

/-- The entry point `utf16To8` on the 16-bit encoding of a sequence of scalar values. -/
theorem entry_utf16To8 (cps : List Nat) (hv : ∀ c ∈ cps, isScalar c) :
    utf.utf16To8 (unitsToBytes 2 (cps.flatMap utf16Reference))
      = .ok (cps.flatMap utf8Reference) := by
  unfold utf.utf16To8 toNarrow array.utf16To8
  simp only [unitsToBytes_length]
  rw [Nat.mul_div_cancel_left _ (by norm_num : 0 < 2)]
  rw [bytesToUnits_unitsToBytes 2 _ (utf16_units cps hv)]
  rw [array_utf16To8_run cps _ _ true hv (utf8_length_le_four_utf16 cps) (by simp)]
  simp only [array.written, Nat.sub_zero]
  rw [take_overwrite_zero, unitsToBytes_one _ (utf8_bytes cps hv)]

/-- The entry point `utf16To32` on the 16-bit encoding of a sequence of scalar values. -/
theorem entry_utf16To32 (cps : List Nat) (hv : ∀ c ∈ cps, isScalar c) :
    utf.utf16To32 (unitsToBytes 2 (cps.flatMap utf16Reference))
      = .ok (unitsToBytes 4 cps) := by
  unfold utf.utf16To32 toWide array.utf16To32
  simp only [unitsToBytes_length]
  rw [Nat.mul_div_cancel_left _ (by norm_num : 0 < 2)]
  rw [bytesToUnits_unitsToBytes 2 _ (utf16_units cps hv)]
  rw [array_utf16To32_run cps _ _ true hv
    (flatMap_length_pos_le utf16Reference cps (fun x _ => (utf16Reference_length x).1))
    (by simp)]
  simp only [array.written, Nat.sub_zero]
  rw [take_overwrite_zero]

/-- The entry point `utf32To16` on a sequence of scalar values. -/
theorem entry_utf32To16 (cps : List Nat) (hv : ∀ c ∈ cps, isScalar c) :
    utf.utf32To16 (unitsToBytes 4 cps)
      = .ok (unitsToBytes 2 (cps.flatMap utf16Reference)) := by
  unfold utf.utf32To16 toNarrow array.utf32To16
  simp only [unitsToBytes_length]
  rw [Nat.mul_div_cancel_left _ (by norm_num : 0 < 4)]
  rw [bytesToUnits_unitsToBytes 4 cps (utf32_units cps hv)]
  rw [array_utf32To16_run cps _ _ true hv (utf16_length_le_four cps) (by simp)]
  simp only [array.written, Nat.sub_zero]
  rw [take_overwrite_zero]

end utf

/-! ## Well-formed 16-bit sequences -/

namespace utf

open detail

theorem utf16Reference_bmp (u : Nat) (h : u < 65536) : utf16Reference u = [u] := by
  unfold utf16Reference
  rw [if_pos (by omega)]

theorem utf16Reference_pair (hi lo : Nat) (hh : isHighSurrogate hi) (hl : isLowSurrogate lo) :
    isScalar (0x10000 + (hi - 0xD800) * 1024 + (lo - 0xDC00)) ∧
    utf16Reference (0x10000 + (hi - 0xD800) * 1024 + (lo - 0xDC00)) = [hi, lo] := by
  unfold isHighSurrogate at hh
  unfold isLowSurrogate at hl
  constructor
  · unfold isScalar; omega
  · rw [utf16Reference_arith, if_neg (by omega)]
    have e1 : 55296 + (65536 + (hi - 55296) * 1024 + (lo - 56320) - 65536) / 1024 = hi := by
      omega
    have e2 : 56320 + (65536 + (hi - 55296) * 1024 + (lo - 56320) - 65536) % 1024 = lo := by
      omega
    rw [e1, e2]

/-- A well-formed 16-bit sequence is the encoding of a sequence of scalar values. -/
theorem wellFormedUtf16Aux_decode (l : List Nat) :
    (wellFormedUtf16Aux false l = true →
      ∃ cps : List Nat, (∀ c ∈ cps, isScalar c) ∧ l = cps.flatMap utf16Reference) ∧
    (∀ hi, isHighSurrogate hi → wellFormedUtf16Aux true l = true →
      ∃ cps : List Nat, (∀ c ∈ cps, isScalar c) ∧ hi :: l = cps.flatMap utf16Reference) := by
  induction l with
  | nil =>
    refine ⟨fun _ => ⟨[], by simp, rfl⟩, ?_⟩
    intro hi _ h
    simp [wellFormedUtf16Aux] at h
  | cons u rest ih =>
    constructor
    · intro h
      unfold wellFormedUtf16Aux at h
      by_cases hu : isHighSurrogate u
      · rw [if_pos hu] at h
        exact ih.2 u hu h
      · rw [if_neg hu] at h
        simp only [Bool.and_eq_true, Bool.not_eq_true', decide_eq_false_iff_not,
          decide_eq_true_eq] at h
        obtain ⟨⟨hl, hlt⟩, hr⟩ := h
        obtain ⟨cps, hc, e⟩ := ih.1 hr
        refine ⟨u :: cps, ?_, ?_⟩
        · intro c hcm
          rcases List.mem_cons.mp hcm with rfl | hcm
          · unfold isHighSurrogate at hu
            unfold isLowSurrogate at hl
            unfold isScalar
            omega
          · exact hc c hcm
        · rw [List.flatMap_cons, utf16Reference_bmp u hlt, ← e]
          rfl
    · intro hi hh h
      unfold wellFormedUtf16Aux at h
      simp only [Bool.and_eq_true, decide_eq_true_eq] at h
      obtain ⟨hl, hr⟩ := h
      obtain ⟨cps, hc, e⟩ := ih.1 hr
      obtain ⟨hs, hp⟩ := utf16Reference_pair hi u hh hl
      refine ⟨(0x10000 + (hi - 0xD800) * 1024 + (u - 0xDC00)) :: cps, ?_, ?_⟩
      · intro c hcm
        rcases List.mem_cons.mp hcm with h0 | hcm
        · rw [h0]; exact hs
        · exact hc c hcm
      · rw [List.flatMap_cons, hp, ← e]
        rfl

/-! ## Claims about the entry points -/

/-- C1: for every well-formed UTF-8 byte string `s`, the entry point `utf8To32` succeeds on `s`
and the entry point `utf32To8` succeeds on its result and returns `s` byte for byte. -/
theorem utf8_utf32_roundtrip (s : List Nat) (hs : WellFormedUtf8 s) :
    ∃ t, utf.utf8To32 s = .ok t ∧ utf.utf32To8 t = .ok s := by
  obtain ⟨cps, hv, rfl⟩ := hs
  exact ⟨_, entry_utf8To32 cps hv, entry_utf32To8 cps hv⟩

/-- A concrete instance of C1: the string "A" followed by U+1F600. -/
theorem utf8_utf32_roundtrip_witness :
    WellFormedUtf8 [0x41, 0xF0, 0x9F, 0x98, 0x80] ∧
    ∃ t, utf.utf8To32 [0x41, 0xF0, 0x9F, 0x98, 0x80] = .ok t ∧
      utf.utf32To8 t = .ok [0x41, 0xF0, 0x9F, 0x98, 0x80] :=
  ⟨⟨[0x41, 0x1F600], by decide, by decide⟩,
    utf8_utf32_roundtrip [0x41, 0xF0, 0x9F, 0x98, 0x80] ⟨[0x41, 0x1F600], by decide, by decide⟩⟩

/-- C2: for every well-formed UTF-8 byte string `s`, the entry point `utf8To16` succeeds on `s`
and the entry point `utf16To8` succeeds on its result and returns `s` byte for byte; four-byte
sequences, which pass through a surrogate pair, are included. -/
theorem utf8_utf16_roundtrip (s : List Nat) (hs : WellFormedUtf8 s) :
    ∃ t, utf.utf8To16 s = .ok t ∧ utf.utf16To8 t = .ok s := by
  obtain ⟨cps, hv, rfl⟩ := hs
  exact ⟨_, entry_utf8To16 cps hv, entry_utf16To8 cps hv⟩

/-- A concrete instance of C2: the four-byte sequence of U+1F600. -/
theorem utf8_utf16_roundtrip_witness :
    WellFormedUtf8 [0xF0, 0x9F, 0x98, 0x80] ∧
    ∃ t, utf.utf8To16 [0xF0, 0x9F, 0x98, 0x80] = .ok t ∧
      utf.utf16To8 t = .ok [0xF0, 0x9F, 0x98, 0x80] :=
  ⟨⟨[0x1F600], by decide, by decide⟩,
    utf8_utf16_roundtrip [0xF0, 0x9F, 0x98, 0x80] ⟨[0x1F600], by decide, by decide⟩⟩

/-- C3: for every well-formed sequence `s` of 16-bit units (held by a string as its bytes), the
entry point `utf16To32` succeeds and the entry point `utf32To16` succeeds on its result and
returns `s` unit for unit. -/
theorem utf16_utf32_roundtrip (s : List Nat) (hs : wellFormedUtf16 s = true) :
    ∃ t, utf.utf16To32 (unitsToBytes 2 s) = .ok t ∧ utf.utf32To16 t = .ok (unitsToBytes 2 s) := by
  obtain ⟨cps, hv, rfl⟩ := (wellFormedUtf16Aux_decode s).1 hs
  exact ⟨_, entry_utf16To32 cps hv, entry_utf32To16 cps hv⟩

/-- A concrete instance of C3: "A" followed by the surrogate pair of U+1F600. -/
theorem utf16_utf32_roundtrip_witness :
    wellFormedUtf16 [0x41, 0xD83D, 0xDE00] = true ∧
    ∃ t, utf.utf16To32 (unitsToBytes 2 [0x41, 0xD83D, 0xDE00]) = .ok t ∧
      utf.utf32To16 t = .ok (unitsToBytes 2 [0x41, 0xD83D, 0xDE00]) :=
  ⟨by decide, utf16_utf32_roundtrip [0x41, 0xD83D, 0xDE00] (by decide)⟩

/-- C7: for every well-formed UTF-8 byte string `s`, the entry points `utf8To16` and `utf8To32`
succeed on `s`, the entry point `utf32To16` succeeds on the 32-bit form, and the direct 16-bit
result equals the one obtained through the 32-bit form. -/
theorem utf8To16_factors_through_utf32 (s : List Nat) (hs : WellFormedUtf8 s) :
    ∃ t16 t32, utf.utf8To16 s = .ok t16 ∧ utf.utf8To32 s = .ok t32 ∧
      utf.utf32To16 t32 = .ok t16 := by
  obtain ⟨cps, hv, rfl⟩ := hs
  exact ⟨_, _, entry_utf8To16 cps hv, entry_utf8To32 cps hv, entry_utf32To16 cps hv⟩

/-- A concrete instance of C7: the string "A" followed by U+1F600. -/
theorem utf8To16_factors_through_utf32_witness :
    WellFormedUtf8 [0x41, 0xF0, 0x9F, 0x98, 0x80] ∧
    ∃ t16 t32, utf.utf8To16 [0x41, 0xF0, 0x9F, 0x98, 0x80] = .ok t16 ∧
      utf.utf8To32 [0x41, 0xF0, 0x9F, 0x98, 0x80] = .ok t32 ∧
      utf.utf32To16 t32 = .ok t16 :=
  ⟨⟨[0x41, 0x1F600], by decide, by decide⟩,
    utf8To16_factors_through_utf32 [0x41, 0xF0, 0x9F, 0x98, 0x80]
      ⟨[0x41, 0x1F600], by decide, by decide⟩⟩

end utf

/-! ## Claims about the encoders at the limits of their destination -/

namespace utf

open detail

/-- C11: the character-level `utf32To16` on codepoints of the surrogate range above `0xDC00`.
The guard of the source compares against `lowBegin` (`0xDC00`) where the end of the range is
`0xDFFF`, so `0xDFFF` in strict mode and `0xDC01` in lenient mode are written as code units
themselves, with no error and no replacement. -/
theorem utf32To16_writes_low_surrogates :
    character.utf32To16 0xDFFF ⟨[0, 0], 0⟩ 2 true = (.ok (), ⟨[0xDFFF, 0], 1⟩) ∧
    character.utf32To16 0xDC01 ⟨[0, 0], 0⟩ 2 false = (.ok (), ⟨[0xDC01, 0], 1⟩) := by
  decide

/-- On the part of the surrogate range that the guard does cover, `0xD800..0xDC00`, the
16-bit encoder applies the policy: nothing is written in strict mode, `0xFFFD` in lenient
mode. -/
theorem utf32To16_guarded_surrogates (c : Nat) (d : Buffer) (endp : Nat)
    (h1 : 0xD800 ≤ c) (h2 : c ≤ 0xDC00) :
    character.utf32To16 c d endp true = (.error .IllegalCharacterError, d) ∧
    character.utf32To16 c d endp false = writeInc d 0xFFFD := by
  constructor <;>
  · unfold character.utf32To16
    simp only
    rw [if_pos (by omega), if_pos ⟨h1, h2⟩]
    rfl

/-- C12: the character-level `utf32To16` with exactly one unit of room.  The capacity test of
the source is `begin + 1 > end`, which one unit of room passes: both surrogates of `0x10000`
are written, the second one at the end bound (a memory fault when the allocation stops there),
and the array-level `utf32To16` and `utf8To16` return counts above the capacity
`dstEnd - dstBegin`. -/
theorem utf32To16_overruns_one_unit :
    character.utf32To16 0x10000 ⟨[0, 0], 0⟩ 1 true = (.ok (), ⟨[0xD800, 0xDC00], 2⟩) ∧
    character.utf32To16 0x10000 ⟨[0], 0⟩ 1 true = (.error .MemoryFault, ⟨[0xD800], 1⟩) ∧
    array.utf32To16 [0x10000] 0 1 [0, 0] 0 1 true = (.ok 2, [0xD800, 0xDC00]) ∧
    array.utf8To16 [0x41, 0x41, 0xF0, 0x9F, 0x98, 0x80] 0 6 [0, 0, 0, 0] 0 3 true
      = (.ok 4, [0x41, 0x41, 0xD83D, 0xDE00]) := by
  decide

/-- With no room at all the capacity test of the 16-bit encoder does fire for a codepoint above
the Basic Multilingual Plane: `BufferRangeError`, nothing written. -/
theorem utf32To16_no_room (c : Nat) (d : Buffer) (endp : Nat) (strict : Bool)
    (h1 : 0x10000 ≤ c) (h2 : c ≤ 0x10FFFF) (hroom : endp ≤ d.pos) :
    character.utf32To16 c d endp strict = (.error .BufferRangeError, d) := by
  unfold character.utf32To16
  simp only
  rw [if_neg (by omega), if_neg (by omega), if_pos (by omega)]

/-- The byte count chosen by the 8-bit encoder is the length of the reference encoding. -/
theorem utf32To8Bytes_reference (c : Nat) (strict : Bool) (hc : c ≤ 0x10FFFF) :
    character.utf32To8Bytes c strict = .ok ((utf8Reference c).length, c) := by
  unfold character.utf32To8Bytes utf8Reference
  simp only
  split_ifs <;> rfl

/-- C13: for every codepoint `c ≤ 0x10FFFF` and every destination with fewer bytes of room
before the end bound than the UTF-8 length of `c`, the character-level `utf32To8` fails with
`BufferRangeError` and leaves the destination memory and the write cursor as they were. -/
theorem utf32To8_no_partial_write (c : Nat) (d : Buffer) (endp : Nat) (strict : Bool)
    (hc : c ≤ 0x10FFFF) (hroom : endp - d.pos < (utf8Reference c).length) :
    character.utf32To8 c d endp strict = (.error .BufferRangeError, d) := by
  unfold character.utf32To8
  rw [utf32To8Bytes_reference c strict hc]
  simp only
  rw [if_pos (by omega)]

/-- A concrete instance of C13: U+1F600 needs four bytes and finds three. -/
theorem utf32To8_no_partial_write_witness :
    (0x1F600 ≤ 0x10FFFF ∧ 4 - (Buffer.mk [7, 7, 7, 7, 7] 1).pos < (utf8Reference 0x1F600).length) ∧
    character.utf32To8 0x1F600 ⟨[7, 7, 7, 7, 7], 1⟩ 4 true
      = (.error .BufferRangeError, ⟨[7, 7, 7, 7, 7], 1⟩) :=
  ⟨by decide, utf32To8_no_partial_write 0x1F600 ⟨[7, 7, 7, 7, 7], 1⟩ 4 true (by decide)
    (by decide)⟩

/-! ## Claims about the 16-bit decoder and the source bound -/

/-- C18: the character-level `utf16To32` and the end-of-source bound.  With the bound right
after a high surrogate the decoder still reads the next unit: the codepoint it returns follows
the unit stored at the bound, its cursor ends at 2, past the bound 1, and the array-level loop
over the two-unit source `[0x41, 0xD800]` ends with the read cursor at 3. -/
theorem utf16To32_reads_past_bound :
    character.utf16To32 [0xD800, 0xDC01] 0 1 true = (.ok 0x10001, 2) ∧
    character.utf16To32 [0xD800, 0xDFFF] 0 1 false = (.ok 0x103FF, 2) ∧
    array.utf16To32Loop [0x41, 0xD800, 0xDC00] 0 2 [0, 0] 0 2 true
      = (.ok (), (3, ⟨[0x41, 0x10000], 2⟩)) := by
  decide

/-- C19: when the character-level `utf16To32` meets a high surrogate followed by a unit `u`
that is not a low surrogate, it goes through `checkStrict` with the cursor advanced past both
units; in lenient mode it returns U+FFFD with the cursor moved by exactly 2, and the lenient
array-level `utf16To32` on `[0xD800, 0x0041]` writes the single unit `0xFFFD` and returns 1. -/
theorem utf16To32_discards_following_unit (src : List Nat) (begin endp hi u : Nat)
    (strict : Bool) (h0 : src[begin]? = some hi) (hh : isHighSurrogate hi)
    (h1 : src[begin + 1]? = some u) (hu : ¬ isLowSurrogate u) :
    character.utf16To32 src begin endp strict = (checkStrict strict, begin + 2) ∧
    character.utf16To32 src begin endp false = (.ok 0xFFFD, begin + 2) ∧
    array.utf16To32 [0xD800, 0x0041] 0 2 [0, 0] 0 2 false = (.ok 1, [0xFFFD, 0]) := by
  refine ⟨?_, ?_, by decide⟩
  · exact (utf16To32_unmatched_in_memory src begin endp hi strict h0).2 hh u h1 hu
  · exact (utf16To32_unmatched_in_memory src begin endp hi false h0).2 hh u h1 hu

/-- A concrete instance of C19: the high surrogate `0xD800` followed by the letter A. -/
theorem utf16To32_discards_following_unit_witness :
    (([0xD800, 0x0041] : List Nat)[0]? = some 0xD800 ∧ isHighSurrogate 0xD800 ∧
      ([0xD800, 0x0041] : List Nat)[0 + 1]? = some 0x0041 ∧ ¬ isLowSurrogate 0x0041) ∧
    (character.utf16To32 [0xD800, 0x0041] 0 2 false = (checkStrict false, 0 + 2) ∧
      character.utf16To32 [0xD800, 0x0041] 0 2 false = (.ok 0xFFFD, 0 + 2) ∧
      array.utf16To32 [0xD800, 0x0041] 0 2 [0, 0] 0 2 false = (.ok 1, [0xFFFD, 0])) :=
  ⟨by decide, utf16To32_discards_following_unit [0xD800, 0x0041] 0 2 0xD800 0x0041 false
    (by decide) (by decide) (by decide) (by decide)⟩

end utf

/-! ## The transcoding loop on a prefix of its source -/

namespace utf

open detail

/-- A loop whose condition is false returns at once, whatever its fuel. -/
theorem whileLoop_stop (body : Nat → Buffer → Except UtfError Unit × array.Cursors)
    (srcEnd dstEnd fuel p : Nat) (d : Buffer) (h : ¬ (p < srcEnd ∧ d.pos < dstEnd)) :
    array.whileLoop body srcEnd dstEnd fuel p d = (.ok (), (p, d)) := by
  cases fuel <;> simp only [array.whileLoop, if_neg h]

/-- A loop whose body fails at the current position returns that failure. -/
theorem whileLoop_fail (body : Nat → Buffer → Except UtfError Unit × array.Cursors)
    (srcEnd dstEnd fuel p : Nat) (d : Buffer) (e : UtfError) (st : array.Cursors)
    (h : p < srcEnd ∧ d.pos < dstEnd) (hb : body p d = (.error e, st)) :
    array.whileLoop body srcEnd dstEnd (fuel + 1) p d = (.error e, st) := by
  simp only [array.whileLoop, if_pos h, hb]

/-- A loop whose body succeeds at the current position goes on from the state it leaves. -/
theorem whileLoop_step (body : Nat → Buffer → Except UtfError Unit × array.Cursors)
    (srcEnd dstEnd fuel p : Nat) (d : Buffer) (p1 : Nat) (d1 : Buffer)
    (h : p < srcEnd ∧ d.pos < dstEnd) (hb : body p d = (.ok (), (p1, d1))) :
    array.whileLoop body srcEnd dstEnd (fuel + 1) p d
      = array.whileLoop body srcEnd dstEnd fuel p1 d1 := by
  simp only [array.whileLoop, if_pos h, hb]

/-- A loop whose body decodes one encoded item and stores its re-encoding runs through a
sequence of items at the front of its source and goes on from there. -/
theorem whileLoop_prefix (body : Nat → Buffer → Except UtfError Unit × array.Cursors)
    (src : List Nat) (srcEnd dstEnd : Nat) (encS encD : Nat → List Nat) (valid : Nat → Prop)
    (hsrcEnd : srcEnd = src.length)
    (hS : ∀ x, valid x → 1 ≤ (encS x).length) (hD : ∀ x, valid x → 1 ≤ (encD x).length)
    (hbody : ∀ x p rest dmem q, valid x → src.drop p = encS x ++ rest →
        q + (encD x).length ≤ dstEnd → dstEnd ≤ dmem.length →
        body p ⟨dmem, q⟩
          = (.ok (), (p + (encS x).length,
              ⟨overwrite dmem q (encD x), q + (encD x).length⟩)))
    (xs : List Nat) (hxs : ∀ x ∈ xs, valid x) (tail : List Nat) (fuel p : Nat)
    (dmem : List Nat) (q : Nat) (hfuel : xs.length ≤ fuel)
    (hsrc : src.drop p = xs.flatMap encS ++ tail)
    (hroom : q + (xs.flatMap encD).length ≤ dstEnd) (hdst : dstEnd ≤ dmem.length) :
    array.whileLoop body srcEnd dstEnd fuel p ⟨dmem, q⟩
      = array.whileLoop body srcEnd dstEnd (fuel - xs.length) (p + (xs.flatMap encS).length)
          ⟨overwrite dmem q (xs.flatMap encD), q + (xs.flatMap encD).length⟩ := by
  induction xs generalizing fuel p dmem q with
  | nil => simp [overwrite_nil]
  | cons x xs ih =>
    have hv := hxs x (List.mem_cons_self _ _)
    have hxs2 : ∀ y ∈ xs, valid y := fun y hy => hxs y (List.mem_cons_of_mem _ hy)
    have hs1 := hS x hv
    have hd1 := hD x hv
    simp only [List.flatMap_cons, List.length_append, List.append_assoc, List.length_cons]
      at hsrc hroom hfuel ⊢
    have hlen := congrArg List.length hsrc
    simp only [List.length_drop, List.length_append] at hlen
    obtain ⟨fuel, rfl⟩ : ∃ f, fuel = f + 1 := ⟨fuel - 1, by omega⟩
    rw [whileLoop_step body srcEnd dstEnd fuel p _ _ _ ⟨by omega, by simp only; omega⟩
      (hbody x p _ dmem q hv hsrc (by omega) hdst)]
    have hsrc2 : src.drop (p + (encS x).length) = xs.flatMap encS ++ tail := by
      rw [← List.drop_drop, hsrc, List.drop_left]
    have hdl := overwrite_length dmem q (encD x) (by omega)
    rw [ih hxs2 fuel (p + (encS x).length) _ _ (by omega) hsrc2 (by omega) (by omega)]
    rw [overwrite_overwrite dmem q _ _ (by omega)]
    simp only [Nat.add_assoc, Nat.add_sub_add_right]

/-- The body of the array-level `utf32To16` on a codepoint of the Basic Multilingual Plane
outside the surrogate range. -/
theorem utf32To16Body_bmp (src : List Nat) (strict : Bool) (dstEnd c p : Nat)
    (rest dmem : List Nat) (q : Nat) (hc : c ≤ 0xFFFF ∧ ¬ (0xD800 ≤ c ∧ c ≤ 0xDFFF))
    (hsrc : src.drop p = [c] ++ rest) (hroom : q + 1 ≤ dstEnd) (hdst : dstEnd ≤ dmem.length) :
    array.utf32To16Body src dstEnd strict p ⟨dmem, q⟩
      = (.ok (), (p + 1, ⟨overwrite dmem q [c], q + 1⟩)) := by
  have hs : isScalar c := ⟨by omega, hc.2⟩
  have e := utf16Reference_bmp c (by omega)
  have h := utf32To16Body_run src strict dstEnd c p rest dmem q hs hsrc
    (by rw [e]; exact hroom) hdst
  rw [e] at h
  exact h

/-! ## Claims about the array-level functions -/

/-- C16: for every sequence of `n` codepoints of the Basic Multilingual Plane outside the
surrogate range and every 16-bit destination of capacity `m`, the array-level `utf32To16`
raises no error, returns `min n m`, and the destination holds the first `min n m` codepoints as
single units. -/
theorem utf32To16_bmp_stream (cps dmem : List Nat) (dstBegin m : Nat) (strict : Bool)
    (hbmp : ∀ c ∈ cps, c ≤ 0xFFFF ∧ ¬ (0xD800 ≤ c ∧ c ≤ 0xDFFF))
    (hdst : dstBegin + m ≤ dmem.length) :
    array.utf32To16 cps 0 cps.length dmem dstBegin (dstBegin + m) strict
      = (.ok (min cps.length m), overwrite dmem dstBegin (cps.take m)) := by
  unfold array.utf32To16 array.utf32To16Loop
  have hlen : (cps.take m).length = min cps.length m := by
    rw [List.length_take, Nat.min_comm]
  have hmin : min cps.length m ≤ m := Nat.min_le_right _ _
  have hmin2 : min cps.length m ≤ cps.length := Nat.min_le_left _ _
  have h := whileLoop_prefix (array.utf32To16Body cps (dstBegin + m) strict) cps cps.length
    (dstBegin + m) (fun c => [c]) (fun c => [c])
    (fun c => c ≤ 0xFFFF ∧ ¬ (0xD800 ≤ c ∧ c ≤ 0xDFFF)) rfl (fun _ _ => le_refl _)
    (fun _ _ => le_refl _)
    (fun x p rest dm q hx hs hr hd =>
      utf32To16Body_bmp _ strict (dstBegin + m) x p rest dm q hx hs hr hd)
    (cps.take m) (fun c hc => hbmp c (List.mem_of_mem_take hc)) (cps.drop m)
    (cps.length - 0) 0 dmem dstBegin (by rw [hlen]; omega)
    (by rw [flatMap_unit, List.take_append_drop]; rfl)
    (by rw [flatMap_unit, hlen]; omega) hdst
  rw [flatMap_unit, hlen] at h
  rw [h, whileLoop_stop _ _ _ _ _ _ (by simp only; omega)]
  simp only [array.written, Nat.zero_add, Nat.add_sub_cancel_left]

/-- A concrete instance of C16: 10,001 letters A into a destination of exactly 10,000 units;
the call returns 10,000 and does not fail. -/
theorem utf32To16_bmp_stream_witness :
    ((∀ c ∈ List.replicate 10001 0x41, c ≤ 0xFFFF ∧ ¬ (0xD800 ≤ c ∧ c ≤ 0xDFFF)) ∧
      0 + 10000 ≤ (List.replicate 10000 0).length) ∧
    array.utf32To16 (List.replicate 10001 0x41) 0 (List.replicate 10001 0x41).length
        (List.replicate 10000 0) 0 (0 + 10000) true
      = (.ok (min (List.replicate 10001 0x41).length 10000),
          overwrite (List.replicate 10000 0) 0 ((List.replicate 10001 0x41).take 10000)) :=
  ⟨⟨fun c hc => by rw [List.eq_of_mem_replicate hc]; decide,
      by rw [List.length_replicate]⟩,
    utf32To16_bmp_stream (List.replicate 10001 0x41) (List.replicate 10000 0) 0 10000 true
      (fun c hc => by rw [List.eq_of_mem_replicate hc]; decide)
      (by rw [List.length_replicate])⟩

end utf

/-! ## The entry point `utf32To8` on arbitrary 32-bit units -/

namespace utf

open detail

/-- In strict mode the 8-bit encoder rejects every value above `0x10FFFF` before it looks at
the destination. -/
theorem utf32To8_above_max (c : Nat) (d : Buffer) (endp : Nat) (hc : 0x10FFFF < c) :
    character.utf32To8 c d endp true = (.error .IllegalCharacterError, d) := by
  unfold character.utf32To8 character.utf32To8Bytes
  simp only [checkStrict]
  rw [if_neg (by omega), if_neg (by omega), if_neg (by omega), if_neg (by omega)]
  rfl

theorem utf32To8Body_valid (src : List Nat) (strict : Bool) (dstEnd c p : Nat)
    (rest dmem : List Nat) (q : Nat) (hc : c ≤ 0x10FFFF) (hsrc : src.drop p = [c] ++ rest)
    (hroom : q + (utf8Reference c).length ≤ dstEnd) (hdst : dstEnd ≤ dmem.length) :
    array.utf32To8Body src dstEnd strict p ⟨dmem, q⟩
      = (.ok (), (p + 1, ⟨overwrite dmem q (utf8Reference c), q + (utf8Reference c).length⟩)) := by
  unfold array.utf32To8Body
  have l0 := load_of_drop src p 0 _ c hsrc (by simp)
  simp only [Nat.add_zero] at l0
  rw [l0]
  simp only
  rw [utf32To8_run c dmem q dstEnd strict hc hroom hdst]

theorem utf8_bytes_valid (us : List Nat) (hv : ∀ c ∈ us, c ≤ 0x10FFFF) :
    ∀ b ∈ us.flatMap utf8Reference, b < 256 := by
  intro b hb
  rw [List.mem_flatMap] at hb
  obtain ⟨c, hc, hbc⟩ := hb
  exact utf8Reference_byte c (hv c hc) b hbc

/-- A sequence of units either stays within `0x10FFFF` or has a first unit above it. -/
theorem split_at_first_above (us : List Nat) :
    (∀ c ∈ us, c ≤ 0x10FFFF) ∨
    ∃ pre c post, us = pre ++ c :: post ∧ (∀ x ∈ pre, x ≤ 0x10FFFF) ∧ 0x10FFFF < c := by
  induction us with
  | nil => left; simp
  | cons u us ih =>
    by_cases hu : u ≤ 0x10FFFF
    · rcases ih with h | ⟨pre, c, post, e, hp, hc⟩
      · left
        intro x hx
        rcases List.mem_cons.mp hx with h0 | hx
        · rw [h0]; exact hu
        · exact h x hx
      · right
        refine ⟨u :: pre, c, post, by rw [e]; rfl, ?_, hc⟩
        intro x hx
        rcases List.mem_cons.mp hx with h0 | hx
        · rw [h0]; exact hu
        · exact hp x hx
    · right
      exact ⟨[], u, us, rfl, by simp, by omega⟩

/-- The entry point `utf32To8` on units that all lie within `0x10FFFF`. -/
theorem entry_utf32To8_valid (us : List Nat) (hv : ∀ c ∈ us, c ≤ 0x10FFFF) :
    utf.utf32To8 (unitsToBytes 4 us) = .ok (us.flatMap utf8Reference) := by
  unfold utf.utf32To8 toNarrow array.utf32To8 array.utf32To8Loop
  simp only [unitsToBytes_length]
  rw [Nat.mul_div_cancel_left _ (by norm_num : 0 < 4)]
  rw [bytesToUnits_unitsToBytes 4 us (fun u hu => by have := hv u hu; omega)]
  have h := whileLoop_run (array.utf32To8Body us (us.length * 4) true) us us.length
    (us.length * 4) (fun c => [c]) utf8Reference (fun c => c ≤ 0x10FFFF) rfl
    (fun _ _ => le_refl _) (fun x _ => (utf8Reference_length x).1)
    (fun x p rest dm q hx hs hr hd =>
      utf32To8Body_valid _ true (us.length * 4) x p rest dm q hx hs hr hd)
    us hv (us.length - 0) 0 (List.replicate (us.length * 4) 0) 0 (by omega) (Nat.zero_le _)
    (by rw [flatMap_unit]; rfl) (by have := utf8_length_le_four us; omega) (by simp)
  rw [h]
  simp only [array.written, Nat.zero_add, Nat.sub_zero]
  rw [take_overwrite_zero, unitsToBytes_one _ (utf8_bytes_valid us hv)]

/-- The entry point `utf32To8` on units of which one lies above `0x10FFFF`. -/
theorem entry_utf32To8_invalid (pre : List Nat) (c : Nat) (post : List Nat)
    (h32 : ∀ u ∈ pre ++ c :: post, u < 4294967296) (hp : ∀ x ∈ pre, x ≤ 0x10FFFF)
    (hc : 0x10FFFF < c) :
    utf.utf32To8 (unitsToBytes 4 (pre ++ c :: post)) = .error .IllegalCharacterError := by
  unfold utf.utf32To8 toNarrow array.utf32To8 array.utf32To8Loop
  simp only [unitsToBytes_length]
  rw [Nat.mul_div_cancel_left _ (by norm_num : 0 < 4)]
  rw [bytesToUnits_unitsToBytes 4 _ (fun u hu => by have := h32 u hu; omega)]
  have hn : (pre ++ c :: post).length = pre.length + (post.length + 1) := by simp
  have h4 := utf8_length_le_four pre
  have h := whileLoop_prefix
    (array.utf32To8Body (pre ++ c :: post) ((pre ++ c :: post).length * 4) true)
    (pre ++ c :: post) (pre ++ c :: post).length ((pre ++ c :: post).length * 4)
    (fun c => [c]) utf8Reference (fun c => c ≤ 0x10FFFF) rfl
    (fun _ _ => le_refl _) (fun x _ => (utf8Reference_length x).1)
    (fun x p rest dm q hx hs hr hd =>
      utf32To8Body_valid _ true ((pre ++ c :: post).length * 4) x p rest dm q hx hs hr hd)
    pre hp (c :: post) ((pre ++ c :: post).length - 0) 0
    (List.replicate ((pre ++ c :: post).length * 4) 0) 0 (by omega)
    (by rw [flatMap_unit]; rfl) (by omega) (by simp)
  rw [flatMap_unit] at h
  rw [h]
  have hf : (pre ++ c :: post).length - 0 - pre.length = post.length + 1 := by omega
  rw [hf]
  have hl : load (pre ++ c :: post) (0 + pre.length) = .ok c := by
    have := load_of_drop (pre ++ c :: post) pre.length 0 (c :: post) c
      (List.drop_left _ _) (by simp)
    simpa using this
  rw [whileLoop_fail _ _ _ _ _ _ .IllegalCharacterError
    (0 + pre.length + 1, ⟨overwrite (List.replicate ((pre ++ c :: post).length * 4) 0) 0
      (pre.flatMap utf8Reference), 0 + (pre.flatMap utf8Reference).length⟩)
    ⟨by omega, by simp only; omega⟩
    (by
      unfold array.utf32To8Body
      rw [hl]
      simp only
      rw [utf32To8_above_max c _ _ hc])]
  rfl

/-- The entry point `utf32To8` on 32-bit units: the encoding of all of them when none exceeds
`0x10FFFF`, and `IllegalCharacterError` otherwise. -/
theorem entry_utf32To8_cases (us : List Nat) (h32 : ∀ u ∈ us, u < 4294967296) :
    ((∀ c ∈ us, c ≤ 0x10FFFF) ∧
      utf.utf32To8 (unitsToBytes 4 us) = .ok (us.flatMap utf8Reference)) ∨
    ((∃ c ∈ us, 0x10FFFF < c) ∧
      utf.utf32To8 (unitsToBytes 4 us) = .error .IllegalCharacterError) := by
  rcases split_at_first_above us with h | ⟨pre, c, post, e, hp, hc⟩
  · exact Or.inl ⟨h, entry_utf32To8_valid us h⟩
  · right
    subst e
    exact ⟨⟨c, by simp, hc⟩, entry_utf32To8_invalid pre c post h32 hp hc⟩

/-- C20: the entry point `utf32To8` is a homomorphism for concatenation.  For all sequences `a`
and `b` of 32-bit units (held by strings as their bytes), the call on `a ++ b` succeeds exactly
when the calls on `a` and on `b` both succeed, and then its result is the concatenation of
theirs. -/
theorem utf32To8_concat (a b : List Nat) (ha : ∀ u ∈ a, u < 4294967296)
    (hb : ∀ u ∈ b, u < 4294967296) :
    ((∃ r, utf.utf32To8 (unitsToBytes 4 (a ++ b)) = .ok r) ↔
      ((∃ ra, utf.utf32To8 (unitsToBytes 4 a) = .ok ra) ∧
        (∃ rb, utf.utf32To8 (unitsToBytes 4 b) = .ok rb))) ∧
    (∀ ra rb, utf.utf32To8 (unitsToBytes 4 a) = .ok ra →
      utf.utf32To8 (unitsToBytes 4 b) = .ok rb →
      utf.utf32To8 (unitsToBytes 4 (a ++ b)) = .ok (ra ++ rb)) := by
  have hab : ∀ u ∈ a ++ b, u < 4294967296 := by
    intro u hu
    rcases List.mem_append.mp hu with h | h
    · exact ha u h
    · exact hb u h
  have key : ∀ us : List Nat, (∀ u ∈ us, u < 4294967296) →
      ((∃ r, utf.utf32To8 (unitsToBytes 4 us) = .ok r) ↔ ∀ c ∈ us, c ≤ 0x10FFFF) := by
    intro us h32
    constructor
    · rintro ⟨r, hr⟩
      rcases entry_utf32To8_cases us h32 with ⟨h, _⟩ | ⟨_, h⟩
      · exact h
      · rw [h] at hr; cases hr
    · intro h
      exact ⟨_, entry_utf32To8_valid us h⟩
  constructor
  · rw [key _ hab, key _ ha, key _ hb]
    constructor
    · intro h
      exact ⟨fun c hc => h c (List.mem_append_left _ hc),
        fun c hc => h c (List.mem_append_right _ hc)⟩
    · rintro ⟨h1, h2⟩ c hc
      rcases List.mem_append.mp hc with h | h
      · exact h1 c h
      · exact h2 c h
  · intro ra rb hra hrb
    have va := (key a ha).1 ⟨ra, hra⟩
    have vb := (key b hb).1 ⟨rb, hrb⟩
    have vab : ∀ c ∈ a ++ b, c ≤ 0x10FFFF := by
      intro c hc
      rcases List.mem_append.mp hc with h | h
      · exact va c h
      · exact vb c h
    rw [entry_utf32To8_valid a va] at hra
    rw [entry_utf32To8_valid b vb] at hrb
    rw [entry_utf32To8_valid _ vab, List.flatMap_append]
    cases hra
    cases hrb
    rfl

/-- A concrete instance of C20: "A" and U+1F600. -/
theorem utf32To8_concat_witness :
    ((∀ u ∈ ([0x41] : List Nat), u < 4294967296) ∧
      (∀ u ∈ ([0x1F600] : List Nat), u < 4294967296)) ∧
    (((∃ r, utf.utf32To8 (unitsToBytes 4 ([0x41] ++ [0x1F600])) = .ok r) ↔
      ((∃ ra, utf.utf32To8 (unitsToBytes 4 [0x41]) = .ok ra) ∧
        (∃ rb, utf.utf32To8 (unitsToBytes 4 [0x1F600]) = .ok rb))) ∧
    (∀ ra rb, utf.utf32To8 (unitsToBytes 4 [0x41]) = .ok ra →
      utf.utf32To8 (unitsToBytes 4 [0x1F600]) = .ok rb →
      utf.utf32To8 (unitsToBytes 4 ([0x41] ++ [0x1F600])) = .ok (ra ++ rb))) :=
  ⟨⟨by decide, by decide⟩, utf32To8_concat [0x41] [0x1F600] (by decide) (by decide)⟩

end utf

/-! ## The strict 8-bit to 32-bit transcoder on malformed input -/

namespace utf

open detail

/-- The range check of the 8-bit decoder does not consult the strict flag: a sequence whose
last byte would lie at or beyond the bound fails with `IllegalCharacterError` in both modes,
with the cursor where it was. -/
theorem utf8To32_range_check (src : List Nat) (begin endp b : Nat) (strict : Bool)
    (hb : src[begin]? = some b) (hk : endp ≤ begin + UTF8_BYTES.getD b 0) :
    character.utf8To32 src begin endp strict = (.error .IllegalCharacterError, begin) := by
  unfold character.utf8To32 load
  simp only [hb]
  rw [if_pos (by omega)]

/-- C14, as the claim states it, fails: the strict array-level `utf8To32` and the entry point
`utf8To32` return output for the stray continuation byte `80`, for the leading byte `E0`
followed by two letters, and for the overlong form `C0 80`. -/
theorem utf8To32_strict_accepts_malformed :
    array.utf8To32 [0x80] 0 1 [0] 0 1 true = (.ok 1, [0x80]) ∧
    array.utf8To32 [0xE0, 0x41, 0x41] 0 3 [0, 0, 0] 0 3 true = (.ok 1, [0xFFFFF001, 0, 0]) ∧
    array.utf8To32 [0xC0, 0x80] 0 2 [0, 0] 0 2 true = (.ok 1, [0, 0]) ∧
    utf.utf8To32 [0x80] = .ok [0x80, 0, 0, 0] ∧
    utf.utf8To32 [0xE0, 0x41, 0x41] = .ok [0x01, 0xF0, 0xFF, 0xFF] ∧
    utf.utf8To32 [0xC0, 0x80] = .ok [0, 0, 0, 0] := by
  decide

/-- C14, amended: for every 8-bit input made of a well-formed UTF-8 prefix followed by a
leading byte in `0xF8..0xFF`, or by a leading byte with fewer bytes after it than its table entry
asks for, the strict array-level `utf8To32` (with a destination of at least as many units as the
source has bytes) and the entry point `utf8To32` fail with `IllegalCharacterError`. -/
theorem utf8To32_strict_rejects (cps : List Nat) (b : Nat) (tail dmem : List Nat)
    (dstEnd : Nat) (hv : ∀ c ∈ cps, isScalar c) (hbytes : ∀ x ∈ b :: tail, x < 256)
    (hbad : 0xF8 ≤ b ∨ tail.length < UTF8_BYTES.getD b 0)
    (hroom : (cps.flatMap utf8Reference ++ b :: tail).length ≤ dstEnd)
    (hdst : dstEnd ≤ dmem.length) :
    (array.utf8To32 (cps.flatMap utf8Reference ++ b :: tail) 0
        (cps.flatMap utf8Reference ++ b :: tail).length dmem 0 dstEnd true).1
      = .error .IllegalCharacterError ∧
    utf.utf8To32 (cps.flatMap utf8Reference ++ b :: tail) = .error .IllegalCharacterError := by
  have hb256 : b < 256 := hbytes b (List.mem_cons_self _ _)
  have hn : (cps.flatMap utf8Reference ++ b :: tail).length
      = (cps.flatMap utf8Reference).length + (tail.length + 1) := by simp
  have hcl := flatMap_length_pos_le utf8Reference cps (fun x _ => (utf8Reference_length x).1)
  have hget : (cps.flatMap utf8Reference ++ b :: tail)[(cps.flatMap utf8Reference).length]?
      = some b := by
    rw [List.getElem?_append_right (le_refl _), Nat.sub_self]
    exact List.getElem?_cons_zero
  have hdec : character.utf8To32 (cps.flatMap utf8Reference ++ b :: tail)
      (cps.flatMap utf8Reference).length (cps.flatMap utf8Reference ++ b :: tail).length true
      = (.error .IllegalCharacterError, (cps.flatMap utf8Reference).length) := by
    rcases hbad with h | h
    · exact utf8To32_strict_invalid_lead _ _ _ b hget h (by omega)
    · exact utf8To32_range_check _ _ _ b true hget (by omega)
  have key : ∀ (dm : List Nat) (dEnd : Nat),
      (cps.flatMap utf8Reference ++ b :: tail).length ≤ dEnd → dEnd ≤ dm.length →
      array.utf8To32Loop (cps.flatMap utf8Reference ++ b :: tail) 0
        (cps.flatMap utf8Reference ++ b :: tail).length dm 0 dEnd true
      = (.error .IllegalCharacterError, ((cps.flatMap utf8Reference).length,
          ⟨overwrite dm 0 cps, cps.length⟩)) := by
    intro dm dEnd hr hd
    unfold array.utf8To32Loop
    have h := whileLoop_prefix
      (array.utf8To32Body (cps.flatMap utf8Reference ++ b :: tail)
        (cps.flatMap utf8Reference ++ b :: tail).length true)
      (cps.flatMap utf8Reference ++ b :: tail)
      (cps.flatMap utf8Reference ++ b :: tail).length dEnd utf8Reference (fun c => [c])
      isScalar rfl (fun x _ => (utf8Reference_length x).1) (fun _ _ => le_refl _)
      (fun x p rest dm q hx hs hr hd => utf8To32Body_run _ true dEnd x p rest dm q hx hs hr hd)
      cps hv (b :: tail) ((cps.flatMap utf8Reference ++ b :: tail).length - 0) 0 dm 0
      (by omega) rfl (by rw [flatMap_unit]; omega) hd
    rw [flatMap_unit] at h
    rw [h]
    have hf : (cps.flatMap utf8Reference ++ b :: tail).length - 0 - cps.length
        = ((cps.flatMap utf8Reference ++ b :: tail).length - 0 - cps.length - 1) + 1 := by
      omega
    rw [hf]
    rw [whileLoop_fail _ _ _ _ _ _ .IllegalCharacterError
      (0 + (cps.flatMap utf8Reference).length, ⟨overwrite dm 0 cps, 0 + cps.length⟩)
      ⟨by omega, by simp only; omega⟩
      (by
        unfold array.utf8To32Body
        rw [Nat.zero_add, hdec])]
    simp only [Nat.zero_add]
  constructor
  · unfold array.utf8To32
    rw [key dmem dstEnd hroom hdst]
    rfl
  · unfold utf.utf8To32 toWide array.utf8To32
    simp only [Nat.div_one]
    rw [bytesToUnits_one _ (by
      intro x hx
      rcases List.mem_append.mp hx with h | h
      · exact utf8_bytes cps hv x h
      · exact hbytes x h)]
    rw [key _ _ (le_refl _) (by simp)]
    rfl

/-- A concrete instance of the amended C14: "A" followed by the truncated sequence `F0 9F`. -/
theorem utf8To32_strict_rejects_witness :
    ((∀ c ∈ ([0x41] : List Nat), isScalar c) ∧ (∀ x ∈ ([0xF0, 0x9F] : List Nat), x < 256) ∧
      (0xF8 ≤ 0xF0 ∨ ([0x9F] : List Nat).length < UTF8_BYTES.getD 0xF0 0) ∧
      (([0x41] : List Nat).flatMap utf8Reference ++ 0xF0 :: [0x9F]).length ≤ 3 ∧
      3 ≤ ([0, 0, 0] : List Nat).length) ∧
    ((array.utf8To32 (([0x41] : List Nat).flatMap utf8Reference ++ 0xF0 :: [0x9F]) 0
        (([0x41] : List Nat).flatMap utf8Reference ++ 0xF0 :: [0x9F]).length [0, 0, 0] 0 3
        true).1
      = .error .IllegalCharacterError ∧
    utf.utf8To32 (([0x41] : List Nat).flatMap utf8Reference ++ 0xF0 :: [0x9F])
      = .error .IllegalCharacterError) :=
  ⟨by decide, utf8To32_strict_rejects [0x41] 0xF0 [0x9F] [0, 0, 0] 3 (by decide) (by decide)
    (by decide) (by decide) (by decide)⟩

end utf

/-! ## The decoders and encoders on arbitrary input -/

namespace utf

open detail

set_option maxRecDepth 4000 in
theorem UTF8_BYTES_length : UTF8_BYTES.length = 256 := by
  rfl

theorem UTF8_BYTES_le (b : Nat) : UTF8_BYTES.getD b 0 ≤ 5 := by
  by_cases h : b < 256
  · by_cases h0 : b < 192
    · rw [UTF8_BYTES_0 b h0]; omega
    · by_cases h1 : b < 224
      · rw [UTF8_BYTES_1 b (by omega) h1]; omega
      · by_cases h2 : b < 240
        · rw [UTF8_BYTES_2 b (by omega) h2]; omega
        · by_cases h3 : b < 248
          · rw [UTF8_BYTES_3 b (by omega) h3]; omega
          · by_cases h4 : b < 252
            · rw [UTF8_BYTES_4 b (by omega) h4]; omega
            · rw [UTF8_BYTES_5 b (by omega) h]
  · have : UTF8_BYTES.length ≤ b := by
      rw [UTF8_BYTES_length]
      omega
    rw [List.getD_eq_default _ _ this]
    omega

theorem UTF8_BYTES_below_F8 (b : Nat) (h : b < 0xF8) : UTF8_BYTES.getD b 0 ≤ 3 := by
  by_cases h0 : b < 192
  · rw [UTF8_BYTES_0 b h0]; omega
  · by_cases h1 : b < 224
    · rw [UTF8_BYTES_1 b (by omega) h1]; omega
    · by_cases h2 : b < 240
      · rw [UTF8_BYTES_2 b (by omega) h2]; omega
      · rw [UTF8_BYTES_3 b (by omega) h]

theorem load_lt (mem : List Nat) (p : Nat) (h : p < mem.length) : load mem p = .ok mem[p] := by
  unfold load
  rw [List.getElem?_eq_getElem h]

/-- The 8-bit decoder on a sequence of at most four bytes that lies inside the source: it
returns a codepoint below `2 ^ 32` with the cursor just past the sequence; a single byte is
returned as it is. -/
theorem utf8To32_short (src : List Nat) (begin endp b : Nat) (strict : Bool)
    (hb : src[begin]? = some b) (hk : UTF8_BYTES.getD b 0 ≤ 3)
    (hfit : begin + UTF8_BYTES.getD b 0 < endp) (hend : endp ≤ src.length) :
    ∃ c, character.utf8To32 src begin endp strict
        = (.ok c, begin + UTF8_BYTES.getD b 0 + 1) ∧
      (UTF8_BYTES.getD b 0 = 0 → c = b % 4294967296) := by
  have hl0 : load src begin = .ok b := by unfold load; rw [hb]
  unfold character.utf8To32
  simp only [hl0]
  rw [if_neg (by omega)]
  generalize UTF8_BYTES.getD b 0 = k at hk hfit
  have h1 := load_lt src (begin + 1)
  have h2 := load_lt src (begin + 2)
  have h3 := load_lt src (begin + 3)
  interval_cases k
  · simp only [character.utf8To32Switch, character.utf8To32Case0, hl0]
    refine ⟨_, rfl, ?_⟩
    intro _
    simp only [add32, sub32, UTF8_OFFSETS, List.getD_cons_zero]
    omega
  · simp only [character.utf8To32Switch, character.utf8To32Case1, character.utf8To32Case0,
      hl0, h1 (by omega)]
    exact ⟨_, rfl, by intro h; cases h⟩
  · simp only [character.utf8To32Switch, character.utf8To32Case2, character.utf8To32Case1,
      character.utf8To32Case0, hl0, h1 (by omega), h2 (by omega), Nat.add_assoc]
    exact ⟨_, rfl, by intro h; cases h⟩
  · simp only [character.utf8To32Switch, character.utf8To32Case3, character.utf8To32Case2,
      character.utf8To32Case1, character.utf8To32Case0, hl0, h1 (by omega), h2 (by omega),
      h3 (by omega), Nat.add_assoc]
    exact ⟨_, rfl, by intro h; cases h⟩

/-- The lenient 8-bit decoder on a leading byte with table entry 4 or 5 that has enough bytes
after it: it returns some value with the cursor advanced by 4. -/
theorem utf8To32_long_lenient (src : List Nat) (begin endp b : Nat)
    (hb : src[begin]? = some b) (hk : 4 ≤ UTF8_BYTES.getD b 0)
    (hfit : begin + UTF8_BYTES.getD b 0 < endp) (hend : endp ≤ src.length) :
    ∃ c, character.utf8To32 src begin endp false = (.ok c, begin + 4) := by
  have hl0 : load src begin = .ok b := by unfold load; rw [hb]
  have hk5 := UTF8_BYTES_le b
  unfold character.utf8To32
  simp only [hl0]
  rw [if_neg (by omega)]
  generalize UTF8_BYTES.getD b 0 = k at hk hfit hk5
  have h1 := load_lt src (begin + 1)
  have h2 := load_lt src (begin + 2)
  have h3 := load_lt src (begin + 3)
  interval_cases k
  · simp only [character.utf8To32Switch, character.utf8To32Case4, checkStrict,
      character.utf8To32Case3, character.utf8To32Case2,
      character.utf8To32Case1, character.utf8To32Case0, hl0, h1 (by omega), h2 (by omega),
      h3 (by omega), Nat.add_assoc]
    exact ⟨_, rfl⟩
  · simp only [character.utf8To32Switch, character.utf8To32Case5, character.utf8To32Case4,
      checkStrict, character.utf8To32Case3, character.utf8To32Case2,
      character.utf8To32Case1, character.utf8To32Case0, hl0, h1 (by omega), h2 (by omega),
      h3 (by omega), Nat.add_assoc]
    exact ⟨_, rfl⟩

/-- The 8-bit decoder at a position before the bound, the bound inside the source: either a
value with the cursor advanced and still within the bound (a single byte being returned as it
is), or `IllegalCharacterError` with the cursor unmoved. -/
theorem utf8To32_any (src : List Nat) (begin endp : Nat) (strict : Bool)
    (hbegin : begin < endp) (hend : endp ≤ src.length) :
    (∃ c s1, character.utf8To32 src begin endp strict = (.ok c, s1) ∧ begin < s1 ∧ s1 ≤ endp ∧
      (s1 = begin + 1 → ∃ b, src[begin]? = some b ∧ c = b % 4294967296)) ∨
    character.utf8To32 src begin endp strict = (.error .IllegalCharacterError, begin) := by
  have hlt : begin < src.length := by omega
  have hb : src[begin]? = some src[begin] := List.getElem?_eq_getElem hlt
  by_cases hfit : begin + UTF8_BYTES.getD src[begin] 0 < endp
  · by_cases hk : UTF8_BYTES.getD src[begin] 0 ≤ 3
    · obtain ⟨c, hc, h0⟩ := utf8To32_short src begin endp _ strict hb hk hfit hend
      left
      refine ⟨c, _, hc, by omega, by omega, ?_⟩
      intro h
      exact ⟨_, hb, h0 (by omega)⟩
    · cases strict with
      | false =>
        obtain ⟨c, hc⟩ := utf8To32_long_lenient src begin endp _ hb (by omega) hfit hend
        left
        exact ⟨c, _, hc, by omega, by omega, by omega⟩
      | true =>
        right
        have h5 := UTF8_BYTES_le src[begin]
        unfold character.utf8To32 load
        simp only [hb]
        rw [if_neg (by omega)]
        generalize UTF8_BYTES.getD src[begin] 0 = k at hk h5
        interval_cases k <;> rfl
  · right
    exact utf8To32_range_check src begin endp _ strict hb (by omega)

/-- The 16-bit decoder at a position inside the source: either a value with the cursor
advanced, or `IllegalCharacterError`, or a read outside the source. -/
theorem utf16To32_any (src : List Nat) (begin endp : Nat) (strict : Bool)
    (hbegin : begin < src.length) :
    (∃ c s1, character.utf16To32 src begin endp strict = (.ok c, s1) ∧ begin < s1) ∨
    (∃ e s1, character.utf16To32 src begin endp strict = (.error e, s1) ∧
      (e = .IllegalCharacterError ∨ e = .MemoryFault)) := by
  unfold character.utf16To32
  simp only [load_lt src begin hbegin]
  split_ifs with h1 h2
  · cases hl : load src (begin + 1) with
    | error e =>
      right
      refine ⟨e, _, rfl, ?_⟩
      unfold load at hl
      split at hl
      · cases hl
      · cases hl; exact Or.inr rfl
    | ok c2 =>
      simp only
      split_ifs
      · left; exact ⟨_, _, rfl, by omega⟩
      · cases strict with
        | true => right; exact ⟨_, _, rfl, Or.inl rfl⟩
        | false => left; exact ⟨_, _, rfl, by omega⟩
  · cases strict with
    | true => right; exact ⟨_, _, rfl, Or.inl rfl⟩
    | false => left; exact ⟨_, _, rfl, by omega⟩
  · left; exact ⟨_, _, rfl, by omega⟩

/-- The 8-bit encoder on any value, with four bytes of room: either it writes between one and
four bytes, or it fails with `IllegalCharacterError` and nothing written. -/
theorem utf32To8_any (c : Nat) (mem : List Nat) (p endp : Nat) (strict : Bool)
    (hroom : p + 4 ≤ endp) (hend : endp ≤ mem.length) :
    (∃ mem1 p1, character.utf32To8 c ⟨mem, p⟩ endp strict = (.ok (), ⟨mem1, p1⟩) ∧
      mem1.length = mem.length ∧ p < p1 ∧ p1 ≤ p + 4) ∨
    character.utf32To8 c ⟨mem, p⟩ endp strict = (.error .IllegalCharacterError, ⟨mem, p⟩) := by
  by_cases hc : c ≤ 0x10FFFF
  · left
    have hl := utf8Reference_length c
    exact ⟨_, _, utf32To8_run c mem p endp strict hc (by omega) hend,
      overwrite_length mem p _ (by omega), by omega, by omega⟩
  · cases strict with
    | true => right; exact utf32To8_above_max c _ _ (by omega)
    | false =>
      left
      have e : character.utf32To8 c ⟨mem, p⟩ endp false
          = character.utf32To8 0xFFFD ⟨mem, p⟩ endp false := by
        unfold character.utf32To8 character.utf32To8Bytes
        simp only [checkStrict]
        rw [if_neg (by omega), if_neg (by omega), if_neg (by omega), if_neg (by omega)]
        rfl
      have hl := utf8Reference_length 0xFFFD
      rw [e]
      exact ⟨_, _, utf32To8_run 0xFFFD mem p endp false (by decide) (by omega) hend,
        overwrite_length mem p _ (by omega), by omega, by omega⟩

/-- The 16-bit encoder on any value, with room for what it writes: either it writes one unit,
or two for a value in `0x10000..0x10FFFF`, or it fails with `IllegalCharacterError` and nothing
written. -/
theorem utf32To16_any (c : Nat) (mem : List Nat) (p endp : Nat) (strict : Bool)
    (hend : endp ≤ mem.length)
    (hroom : p + 2 ≤ endp ∨ (p + 1 ≤ endp ∧ ¬ (0xFFFF < c ∧ c ≤ 0x10FFFF))) :
    (∃ mem1 p1, character.utf32To16 c ⟨mem, p⟩ endp strict = (.ok (), ⟨mem1, p1⟩) ∧
      mem1.length = mem.length ∧ p < p1 ∧ p1 ≤ p + 2 ∧
      (¬ (0xFFFF < c ∧ c ≤ 0x10FFFF) → p1 = p + 1)) ∨
    character.utf32To16 c ⟨mem, p⟩ endp strict
      = (.error .IllegalCharacterError, ⟨mem, p⟩) := by
  have hone : ∀ v, ∃ mem1 p1, writeInc ⟨mem, p⟩ v = (.ok (), ⟨mem1, p1⟩) ∧
      mem1.length = mem.length ∧ p < p1 ∧ p1 ≤ p + 2 ∧ p1 = p + 1 := by
    intro v
    exact ⟨_, _, writeInc_fresh mem p v (by omega), overwrite_length mem p _ (by simp; omega),
      by omega, by omega, rfl⟩
  unfold character.utf32To16
  simp only
  split_ifs with h1 h2 h3 h4
  · cases strict with
    | true => right; rfl
    | false =>
      left
      obtain ⟨m1, p1, e, hl, ha, hb, hc⟩ := hone (UTF16 0xFFFD)
      exact ⟨m1, p1, e, hl, ha, hb, fun _ => hc⟩
  · left
    obtain ⟨m1, p1, e, hl, ha, hb, hc⟩ := hone (UTF16 c)
    exact ⟨m1, p1, e, hl, ha, hb, fun _ => hc⟩
  · cases strict with
    | true => right; rfl
    | false =>
      left
      obtain ⟨m1, p1, e, hl, ha, hb, hc⟩ := hone (UTF16 0xFFFD)
      exact ⟨m1, p1, e, hl, ha, hb, fun _ => hc⟩
  · omega
  · left
    have hr : p + 2 ≤ endp := by omega
    rw [writeInc_fresh mem p _ (by omega)]
    simp only
    have := writeInc_overwrite mem p (UTF16 (add32 (sub32 c 65536 &&& 1023) 56320))
      [UTF16 (add32 (sub32 c 65536 >>> 10) 55296)] (by simp; omega)
    simp only [List.length_singleton] at this
    rw [this]
    exact ⟨_, _, rfl, overwrite_length mem p _ (by simp; omega), by omega, by omega,
      fun h => absurd ⟨by omega, by omega⟩ h⟩

end utf

/-! ## Loop invariants and the destination sizes of the entry points -/

namespace utf

open detail

/-- A loop whose body keeps an invariant and advances the read cursor ends, with enough fuel,
either normally with the invariant and the loop condition false, or with an error that its body
raised, in the state the body left. -/
theorem whileLoop_invariant (body : Nat → Buffer → Except UtfError Unit × array.Cursors)
    (srcEnd dstEnd : Nat) (Inv : Nat → Buffer → Prop) (Err : UtfError → array.Cursors → Prop)
    (hbody : ∀ s d, Inv s d → s < srcEnd → d.pos < dstEnd →
      (∃ s1 d1, body s d = (.ok (), (s1, d1)) ∧ Inv s1 d1 ∧ s < s1) ∨
      (∃ e st, body s d = (.error e, st) ∧ Err e st))
    (fuel s : Nat) (d : Buffer) (hinv : Inv s d) (hfuel : srcEnd - s ≤ fuel) :
    (∃ s1 d1, array.whileLoop body srcEnd dstEnd fuel s d = (.ok (), (s1, d1)) ∧ Inv s1 d1 ∧
      ¬ (s1 < srcEnd ∧ d1.pos < dstEnd)) ∨
    (∃ e st, array.whileLoop body srcEnd dstEnd fuel s d = (.error e, st) ∧ Err e st) := by
  induction fuel generalizing s d with
  | zero =>
    left
    have h : ¬ (s < srcEnd ∧ d.pos < dstEnd) := by omega
    exact ⟨s, d, whileLoop_stop body srcEnd dstEnd 0 s d h, hinv, h⟩
  | succ fuel ih =>
    by_cases h : s < srcEnd ∧ d.pos < dstEnd
    · rcases hbody s d hinv h.1 h.2 with ⟨s1, d1, hb, hi, hlt⟩ | ⟨e, st, hb, he⟩
      · rw [whileLoop_step body srcEnd dstEnd fuel s d s1 d1 h hb]
        exact ih s1 d1 hi (by omega)
      · right
        exact ⟨e, st, whileLoop_fail body srcEnd dstEnd fuel s d e st h hb, he⟩
    · left
      exact ⟨s, d, whileLoop_stop body srcEnd dstEnd _ s d h, hinv, h⟩

/-- From the outcome of the invariant lemma to `CapacitySuffices`. -/
theorem capacitySuffices_of (res : Except UtfError Unit × array.Cursors) (srcEnd cap : Nat)
    (h : (∃ s1 d1, res = (.ok (), (s1, d1)) ∧ srcEnd ≤ s1 ∧ d1.pos ≤ cap) ∨
      (∃ e st, res = (.error e, st) ∧ e = .IllegalCharacterError ∧ st.2.pos ≤ cap)) :
    CapacitySuffices res srcEnd cap := by
  unfold CapacitySuffices
  rcases h with ⟨s1, d1, hr, h1, h2⟩ | ⟨e, st, hr, he, hp⟩
  · subst hr
    exact Or.inl ⟨rfl, h1, h2⟩
  · subst hr
    subst he
    exact Or.inr ⟨rfl, hp⟩

/-- The 16-bit decoder at a position where its reads stay inside the memory (a unit follows the
position, or the unit at the position is not a high surrogate): either a value with the cursor
advanced, or `IllegalCharacterError`. -/
theorem utf16To32_safe (mem : List Nat) (begin endp : Nat) (strict : Bool)
    (hbegin : begin < mem.length)
    (hread : begin + 1 < mem.length ∨ ∀ u, mem[begin]? = some u → ¬ isHighSurrogate u) :
    (∃ c s1, character.utf16To32 mem begin endp strict = (.ok c, s1) ∧ begin < s1) ∨
    (∃ s1, character.utf16To32 mem begin endp strict = (.error .IllegalCharacterError, s1)) := by
  unfold character.utf16To32
  simp only [load_lt mem begin hbegin]
  split_ifs with h1 h2
  · have hlt : begin + 1 < mem.length := by
      rcases hread with h | h
      · exact h
      · exact absurd h1 (h _ (List.getElem?_eq_getElem hbegin))
    simp only [load_lt mem (begin + 1) hlt]
    split_ifs
    · left; exact ⟨_, _, rfl, by omega⟩
    · cases strict with
      | true => right; exact ⟨_, rfl⟩
      | false => left; exact ⟨_, _, rfl, by omega⟩
  · cases strict with
    | true => right; exact ⟨_, rfl⟩
    | false => left; exact ⟨_, _, rfl, by omega⟩
  · left; exact ⟨_, _, rfl, by omega⟩

/-- Where the reads of the 16-bit decoder stay inside the memory: at every position before the
bound `n` when a unit is readable at the bound or the unit before the bound is not a high
surrogate. -/
theorem utf16_read_inside (mem : List Nat) (n s : Nat) (hn : n ≤ mem.length) (hs : s < n)
    (hread : n < mem.length ∨ ∀ u, mem[n - 1]? = some u → ¬ isHighSurrogate u) :
    s + 1 < mem.length ∨ ∀ u, mem[s]? = some u → ¬ isHighSurrogate u := by
  rcases hread with h | h
  · left; omega
  · by_cases hl : s + 1 < n
    · left; omega
    · right
      have : s = n - 1 := by omega
      rw [this]
      exact h

theorem utf8To32_capacity (mem dmem : List Nat) (n : Nat) (strict : Bool)
    (hn : n ≤ mem.length) (hd : n ≤ dmem.length) :
    CapacitySuffices (array.utf8To32Loop mem 0 n dmem 0 n strict) n n := by
  apply capacitySuffices_of
  unfold array.utf8To32Loop
  have h := whileLoop_invariant (array.utf8To32Body mem n strict) n n
    (fun s d => d.pos ≤ s ∧ s ≤ n ∧ d.mem.length = dmem.length)
    (fun e st => e = .IllegalCharacterError ∧ st.2.pos ≤ n)
    (by
      rintro s ⟨dm, q⟩ ⟨h1, h2, h3⟩ hs hq
      simp only at h1 h3 hq
      unfold array.utf8To32Body
      rcases utf8To32_any mem s n strict hs hn with ⟨c, s1, hc, ha, hb, _⟩ | hc
      · left
        rw [hc]
        simp only
        rw [writeInc_fresh dm q _ (by omega)]
        exact ⟨s1, _, rfl, ⟨by simp only; omega, hb,
          by simp only; rw [overwrite_length dm q _ (by simp; omega)]; exact h3⟩, ha⟩
      · right
        rw [hc]
        exact ⟨_, _, rfl, rfl, by simp only; omega⟩)
    (n - 0) 0 ⟨dmem, 0⟩ ⟨Nat.le_refl _, Nat.zero_le _, rfl⟩ (le_refl _)
  rcases h with ⟨s1, d1, hr, ⟨h1, h2, _⟩, hn⟩ | h
  · left
    exact ⟨s1, d1, hr, by omega, by omega⟩
  · right
    exact h

theorem utf16To32_capacity (mem dmem : List Nat) (n : Nat) (strict : Bool)
    (hn : n ≤ mem.length)
    (hread : n < mem.length ∨ ∀ u, mem[n - 1]? = some u → ¬ isHighSurrogate u)
    (hd : n ≤ dmem.length) :
    CapacitySuffices (array.utf16To32Loop mem 0 n dmem 0 n strict) n n := by
  apply capacitySuffices_of
  unfold array.utf16To32Loop
  have h := whileLoop_invariant (array.utf16To32Body mem n strict) n n
    (fun s d => d.pos ≤ s ∧ d.pos ≤ n ∧ d.mem.length = dmem.length)
    (fun e st => e = .IllegalCharacterError ∧ st.2.pos ≤ n)
    (by
      rintro s ⟨dm, q⟩ ⟨h1, h2, h3⟩ hs hq
      simp only at h1 h2 h3 hq
      unfold array.utf16To32Body
      rcases utf16To32_safe mem s n strict (by omega) (utf16_read_inside mem n s hn hs hread)
        with ⟨c, s1, hc, ha⟩ | ⟨s1, hc⟩
      · left
        rw [hc]
        simp only
        rw [writeInc_fresh dm q _ (by omega)]
        exact ⟨s1, _, rfl, ⟨by simp only; omega, by simp only; omega,
          by simp only; rw [overwrite_length dm q _ (by simp; omega)]; exact h3⟩, ha⟩
      · right
        rw [hc]
        exact ⟨_, _, rfl, rfl, by simp only; omega⟩)
    (n - 0) 0 ⟨dmem, 0⟩ ⟨Nat.le_refl _, Nat.zero_le _, rfl⟩ (le_refl _)
  rcases h with ⟨s1, d1, hr, ⟨h1, h2, _⟩, hn⟩ | h
  · left
    exact ⟨s1, d1, hr, by omega, by omega⟩
  · right
    exact h

theorem utf8To16_capacity (mem dmem : List Nat) (n : Nat) (strict : Bool)
    (hn : n ≤ mem.length) (hbytes : ∀ i b, i < n → mem[i]? = some b → b < 256)
    (hd : n ≤ dmem.length) :
    CapacitySuffices (array.utf8To16Loop mem 0 n dmem 0 n strict) n n := by
  apply capacitySuffices_of
  unfold array.utf8To16Loop
  have h := whileLoop_invariant (array.utf8To16Body mem n n strict) n n
    (fun s d => d.pos ≤ s ∧ s ≤ n ∧ d.mem.length = dmem.length)
    (fun e st => e = .IllegalCharacterError ∧ st.2.pos ≤ n)
    (by
      rintro s ⟨dm, q⟩ ⟨h1, h2, h3⟩ hs hq
      simp only at h1 h3 hq
      unfold array.utf8To16Body
      rcases utf8To32_any mem s n strict hs hn with ⟨c, s1, hc, ha, hb, h0⟩ | hc
      · rw [hc]
        simp only
        have hroom : q + 2 ≤ n ∨ (q + 1 ≤ n ∧ ¬ (0xFFFF < c ∧ c ≤ 0x10FFFF)) := by
          by_cases h : s1 = s + 1
          · right
            obtain ⟨b, hb1, hb2⟩ := h0 h
            have := hbytes s b hs hb1
            exact ⟨by omega, by omega⟩
          · left; omega
        rcases utf32To16_any c dm q n strict (by omega) hroom with
          ⟨m1, p1, he, hl, hp1, hp2, hp3⟩ | he
        · left
          rw [he]
          refine ⟨s1, _, rfl, ⟨?_, hb, by simp only; omega⟩, ha⟩
          simp only
          by_cases h : s1 = s + 1
          · obtain ⟨b, hb1, hb2⟩ := h0 h
            have := hbytes s b hs hb1
            have := hp3 (by omega)
            omega
          · omega
        · right
          rw [he]
          exact ⟨_, _, rfl, rfl, by simp only; omega⟩
      · right
        rw [hc]
        exact ⟨_, _, rfl, rfl, by simp only; omega⟩)
    (n - 0) 0 ⟨dmem, 0⟩ ⟨Nat.le_refl _, Nat.zero_le _, rfl⟩ (le_refl _)
  rcases h with ⟨s1, d1, hr, ⟨h1, h2, _⟩, hn⟩ | h
  · left
    exact ⟨s1, d1, hr, by omega, by omega⟩
  · right
    exact h

theorem utf32To8_capacity (mem dmem : List Nat) (n : Nat) (strict : Bool)
    (hn : n ≤ mem.length) (hd : n * 4 ≤ dmem.length) :
    CapacitySuffices (array.utf32To8Loop mem 0 n dmem 0 (n * 4) strict) n (n * 4) := by
  apply capacitySuffices_of
  unfold array.utf32To8Loop
  have h := whileLoop_invariant (array.utf32To8Body mem (n * 4) strict) n (n * 4)
    (fun s d => d.pos ≤ 4 * s ∧ s ≤ n ∧ d.mem.length = dmem.length)
    (fun e st => e = .IllegalCharacterError ∧ st.2.pos ≤ n * 4)
    (by
      rintro s ⟨dm, q⟩ ⟨h1, h2, h3⟩ hs hq
      simp only at h1 h3 hq
      unfold array.utf32To8Body
      rw [load_lt mem s (by omega)]
      simp only
      rcases utf32To8_any mem[s] dm q (n * 4) strict (by omega) (by omega) with
        ⟨m1, p1, he, hl, hp1, hp2⟩ | he
      · left
        rw [he]
        exact ⟨s + 1, _, rfl, ⟨by simp only; omega, by omega, by simp only; omega⟩, by omega⟩
      · right
        rw [he]
        exact ⟨_, _, rfl, rfl, by simp only; omega⟩)
    (n - 0) 0 ⟨dmem, 0⟩ ⟨Nat.le_refl _, Nat.zero_le _, rfl⟩ (le_refl _)
  rcases h with ⟨s1, d1, hr, ⟨h1, h2, _⟩, hn⟩ | h
  · left
    exact ⟨s1, d1, hr, by omega, by omega⟩
  · right
    exact h

theorem utf32To16_capacity (mem dmem : List Nat) (n : Nat) (strict : Bool)
    (hn : n ≤ mem.length) (hd : n * 4 ≤ dmem.length) :
    CapacitySuffices (array.utf32To16Loop mem 0 n dmem 0 (n * 4) strict) n (n * 4) := by
  apply capacitySuffices_of
  unfold array.utf32To16Loop
  have h := whileLoop_invariant (array.utf32To16Body mem (n * 4) strict) n (n * 4)
    (fun s d => d.pos ≤ 2 * s ∧ s ≤ n ∧ d.mem.length = dmem.length)
    (fun e st => e = .IllegalCharacterError ∧ st.2.pos ≤ n * 4)
    (by
      rintro s ⟨dm, q⟩ ⟨h1, h2, h3⟩ hs hq
      simp only at h1 h3 hq
      unfold array.utf32To16Body
      rw [load_lt mem s (by omega)]
      simp only
      rcases utf32To16_any mem[s] dm q (n * 4) strict (by omega)
        (Or.inl (by omega)) with ⟨m1, p1, he, hl, hp1, hp2, _⟩ | he
      · left
        rw [he]
        exact ⟨s + 1, _, rfl, ⟨by simp only; omega, by omega, by simp only; omega⟩, by omega⟩
      · right
        rw [he]
        exact ⟨_, _, rfl, rfl, by simp only; omega⟩)
    (n - 0) 0 ⟨dmem, 0⟩ ⟨Nat.le_refl _, Nat.zero_le _, rfl⟩ (le_refl _)
  rcases h with ⟨s1, d1, hr, ⟨h1, h2, _⟩, hn⟩ | h
  · left
    exact ⟨s1, d1, hr, by omega, by omega⟩
  · right
    exact h

theorem utf16To8_capacity (mem dmem : List Nat) (n : Nat) (strict : Bool)
    (hn : n ≤ mem.length)
    (hread : n < mem.length ∨ ∀ u, mem[n - 1]? = some u → ¬ isHighSurrogate u)
    (hd : n * 4 ≤ dmem.length) :
    CapacitySuffices (array.utf16To8Loop mem 0 n dmem 0 (n * 4) strict) n (n * 4) := by
  apply capacitySuffices_of
  unfold array.utf16To8Loop
  have h := whileLoop_invariant (array.utf16To8Body mem n (n * 4) strict) n (n * 4)
    (fun s d => d.pos ≤ 4 * s ∧ d.pos ≤ n * 4 ∧ d.mem.length = dmem.length)
    (fun e st => e = .IllegalCharacterError ∧ st.2.pos ≤ n * 4)
    (by
      rintro s ⟨dm, q⟩ ⟨h1, h2, h3⟩ hs hq
      simp only at h1 h2 h3 hq
      unfold array.utf16To8Body
      rcases utf16To32_safe mem s n strict (by omega) (utf16_read_inside mem n s hn hs hread)
        with ⟨c, s1, hc, ha⟩ | ⟨s1, hc⟩
      · rw [hc]
        simp only
        rcases utf32To8_any c dm q (n * 4) strict (by omega) (by omega) with
          ⟨m1, p1, he, hl, hp1, hp2⟩ | he
        · left
          rw [he]
          exact ⟨s1, _, rfl, ⟨by simp only; omega, by simp only; omega, by simp only; omega⟩,
            ha⟩
        · right
          rw [he]
          exact ⟨_, _, rfl, rfl, by simp only; omega⟩
      · right
        rw [hc]
        exact ⟨_, _, rfl, rfl, by simp only; omega⟩)
    (n - 0) 0 ⟨dmem, 0⟩ ⟨Nat.le_refl _, Nat.zero_le _, rfl⟩ (le_refl _)
  rcases h with ⟨s1, d1, hr, ⟨h1, h2, _⟩, hn⟩ | h
  · left
    exact ⟨s1, d1, hr, by omega, by omega⟩
  · right
    exact h

/-- The predicate `CapacitySuffices` tells a sufficient destination from an insufficient one:
for U+1F600 with one unit of capacity, and for a six-byte source holding a four-byte sequence
with three units of capacity, it fails, whether the overrun is a write outside the allocation or
a write cursor past the capacity inside a larger allocation. -/
theorem capacitySuffices_rejects_overrun :
    ¬ CapacitySuffices (array.utf32To16Loop [0x1F600] 0 1 [0] 0 1 true) 1 1 ∧
    ¬ CapacitySuffices (array.utf32To16Loop [0x1F600] 0 1 [0, 0] 0 1 true) 1 1 ∧
    ¬ CapacitySuffices
      (array.utf8To16Loop [0x41, 0x41, 0xF0, 0x9F, 0x98, 0x80] 0 6 [0, 0, 0] 0 3 true) 6 3 ∧
    ¬ CapacitySuffices
      (array.utf8To16Loop [0x41, 0x41, 0xF0, 0x9F, 0x98, 0x80] 0 6 [0, 0, 0, 0] 0 3 true)
      6 3 := by
  decide

end utf

namespace utf

open detail

/-- C17: the destination sizes chosen by the entry points suffice.  A source of `n` units is
followed in memory by arbitrary units `after` (none, or whatever the storage holds past the
source), and the destination is any allocation of at least the capacity: `n` units for the
widening conversions `utf8To16`, `utf8To32`, `utf16To32`, and `n * 4` units for the narrowing
conversions `utf16To8`, `utf32To8`, `utf32To16`.  Then each of the six transcoding loops, in
either mode, ends in one of two ways: `IllegalCharacterError` is raised, or the loop returns
normally with the read cursor at or past the end of the source; in both the write cursor is at
most the capacity.  No `BufferRangeError` is raised, no access falls outside the source or
destination allocation, and the loop terminates.  The 8-bit source holds bytes; the 16-bit
source either has a unit readable after it or does not end in a high surrogate (the remaining
case is the read past the source of the 16-bit decoder). -/
theorem fixed_destination_sizes_suffice (src8 src16 src32 after dmem : List Nat)
    (strict : Bool) (h8 : ∀ b ∈ src8, b < 256)
    (h16 : after ≠ [] ∨ ∀ u, src16.getLast? = some u → ¬ isHighSurrogate u) :
    (src8.length ≤ dmem.length →
      CapacitySuffices (array.utf8To16Loop (src8 ++ after) 0 src8.length dmem 0
        src8.length strict) src8.length src8.length) ∧
    (src8.length ≤ dmem.length →
      CapacitySuffices (array.utf8To32Loop (src8 ++ after) 0 src8.length dmem 0
        src8.length strict) src8.length src8.length) ∧
    (src16.length ≤ dmem.length →
      CapacitySuffices (array.utf16To32Loop (src16 ++ after) 0 src16.length dmem 0
        src16.length strict) src16.length src16.length) ∧
    (src16.length * 4 ≤ dmem.length →
      CapacitySuffices (array.utf16To8Loop (src16 ++ after) 0 src16.length dmem 0
        (src16.length * 4) strict) src16.length (src16.length * 4)) ∧
    (src32.length * 4 ≤ dmem.length →
      CapacitySuffices (array.utf32To8Loop (src32 ++ after) 0 src32.length dmem 0
        (src32.length * 4) strict) src32.length (src32.length * 4)) ∧
    (src32.length * 4 ≤ dmem.length →
      CapacitySuffices (array.utf32To16Loop (src32 ++ after) 0 src32.length dmem 0
        (src32.length * 4) strict) src32.length (src32.length * 4)) := by
  have hb8 : ∀ i b, i < src8.length → (src8 ++ after)[i]? = some b → b < 256 := by
    intro i b hi hb
    rw [List.getElem?_append_left hi] at hb
    exact h8 b (List.getElem?_mem hb)
  have hr16 : src16.length < (src16 ++ after).length ∨
      ∀ u, (src16 ++ after)[src16.length - 1]? = some u → ¬ isHighSurrogate u := by
    cases after with
    | nil =>
      right
      rcases h16 with h | h
      · exact absurd rfl h
      · intro u hu
        rw [List.append_nil, ← List.getLast?_eq_getElem?] at hu
        exact h u hu
    | cons a rest =>
      left
      simp
  refine ⟨fun hd => utf8To16_capacity _ dmem _ strict (by simp) hb8 hd,
    fun hd => utf8To32_capacity _ dmem _ strict (by simp) hd,
    fun hd => utf16To32_capacity _ dmem _ strict (by simp) hr16 hd,
    fun hd => utf16To8_capacity _ dmem _ strict (by simp) hr16 hd,
    fun hd => utf32To8_capacity _ dmem _ strict (by simp) hd,
    fun hd => utf32To16_capacity _ dmem _ strict (by simp) hd⟩

/-- A concrete instance of C17: "A" followed by U+1F600 in the three encoding forms, a zero
unit after each source, and a destination of twelve units. -/
theorem fixed_destination_sizes_suffice_witness :
    ((∀ b ∈ ([0x41, 0xF0, 0x9F, 0x98, 0x80] : List Nat), b < 256) ∧
      (([0] : List Nat) ≠ [] ∨
        ∀ u, ([0x41, 0xD83D, 0xDE00] : List Nat).getLast? = some u → ¬ isHighSurrogate u)) ∧
    ((([0x41, 0xF0, 0x9F, 0x98, 0x80] : List Nat).length
        ≤ ([0, 0, 0, 0, 0, 0, 0, 0, 0, 0, 0, 0] : List Nat).length →
      CapacitySuffices (array.utf8To16Loop ([0x41, 0xF0, 0x9F, 0x98, 0x80] ++ [0]) 0
        ([0x41, 0xF0, 0x9F, 0x98, 0x80] : List Nat).length
        [0, 0, 0, 0, 0, 0, 0, 0, 0, 0, 0, 0] 0
        ([0x41, 0xF0, 0x9F, 0x98, 0x80] : List Nat).length true)
        ([0x41, 0xF0, 0x9F, 0x98, 0x80] : List Nat).length
        ([0x41, 0xF0, 0x9F, 0x98, 0x80] : List Nat).length) ∧
    (([0x41, 0xF0, 0x9F, 0x98, 0x80] : List Nat).length
        ≤ ([0, 0, 0, 0, 0, 0, 0, 0, 0, 0, 0, 0] : List Nat).length →
      CapacitySuffices (array.utf8To32Loop ([0x41, 0xF0, 0x9F, 0x98, 0x80] ++ [0]) 0
        ([0x41, 0xF0, 0x9F, 0x98, 0x80] : List Nat).length
        [0, 0, 0, 0, 0, 0, 0, 0, 0, 0, 0, 0] 0
        ([0x41, 0xF0, 0x9F, 0x98, 0x80] : List Nat).length true)
        ([0x41, 0xF0, 0x9F, 0x98, 0x80] : List Nat).length
        ([0x41, 0xF0, 0x9F, 0x98, 0x80] : List Nat).length) ∧
    (([0x41, 0xD83D, 0xDE00] : List Nat).length
        ≤ ([0, 0, 0, 0, 0, 0, 0, 0, 0, 0, 0, 0] : List Nat).length →
      CapacitySuffices (array.utf16To32Loop ([0x41, 0xD83D, 0xDE00] ++ [0]) 0
        ([0x41, 0xD83D, 0xDE00] : List Nat).length [0, 0, 0, 0, 0, 0, 0, 0, 0, 0, 0, 0] 0
        ([0x41, 0xD83D, 0xDE00] : List Nat).length true)
        ([0x41, 0xD83D, 0xDE00] : List Nat).length
        ([0x41, 0xD83D, 0xDE00] : List Nat).length) ∧
    (([0x41, 0xD83D, 0xDE00] : List Nat).length * 4
        ≤ ([0, 0, 0, 0, 0, 0, 0, 0, 0, 0, 0, 0] : List Nat).length →
      CapacitySuffices (array.utf16To8Loop ([0x41, 0xD83D, 0xDE00] ++ [0]) 0
        ([0x41, 0xD83D, 0xDE00] : List Nat).length [0, 0, 0, 0, 0, 0, 0, 0, 0, 0, 0, 0] 0
        (([0x41, 0xD83D, 0xDE00] : List Nat).length * 4) true)
        ([0x41, 0xD83D, 0xDE00] : List Nat).length
        (([0x41, 0xD83D, 0xDE00] : List Nat).length * 4)) ∧
    (([0x41, 0x1F600] : List Nat).length * 4
        ≤ ([0, 0, 0, 0, 0, 0, 0, 0, 0, 0, 0, 0] : List Nat).length →
      CapacitySuffices (array.utf32To8Loop ([0x41, 0x1F600] ++ [0]) 0
        ([0x41, 0x1F600] : List Nat).length [0, 0, 0, 0, 0, 0, 0, 0, 0, 0, 0, 0] 0
        (([0x41, 0x1F600] : List Nat).length * 4) true)
        ([0x41, 0x1F600] : List Nat).length (([0x41, 0x1F600] : List Nat).length * 4)) ∧
    (([0x41, 0x1F600] : List Nat).length * 4
        ≤ ([0, 0, 0, 0, 0, 0, 0, 0, 0, 0, 0, 0] : List Nat).length →
      CapacitySuffices (array.utf32To16Loop ([0x41, 0x1F600] ++ [0]) 0
        ([0x41, 0x1F600] : List Nat).length [0, 0, 0, 0, 0, 0, 0, 0, 0, 0, 0, 0] 0
        (([0x41, 0x1F600] : List Nat).length * 4) true)
        ([0x41, 0x1F600] : List Nat).length (([0x41, 0x1F600] : List Nat).length * 4))) :=
  ⟨⟨by decide, Or.inl (by decide)⟩,
    fixed_destination_sizes_suffice [0x41, 0xF0, 0x9F, 0x98, 0x80] [0x41, 0xD83D, 0xDE00]
      [0x41, 0x1F600] [0] [0, 0, 0, 0, 0, 0, 0, 0, 0, 0, 0, 0] true (by decide)
      (Or.inl (by decide))⟩

end utf

/-! ## The lenient 8-bit to 32-bit transcoder -/

namespace utf

open detail

theorem sequencesFit_skip (k : Nat) (l : List Nat) :
    sequencesFit k l = true ↔ k ≤ l.length ∧ sequencesFit 0 (l.drop k) = true := by
  induction k generalizing l with
  | zero => simp
  | succ k ih =>
    cases l with
    | nil => simp [sequencesFit]
    | cons x r =>
      simp only [sequencesFit, List.length_cons, List.drop_succ_cons, Nat.add_le_add_iff_right]
      exact ih r

/-- The loop of the array-level `utf8To32` over bytes below `0xF8`, in either mode, with a
destination at least as long as what is left of the source: it returns normally when every
sequence fits before the end of the source and raises `IllegalCharacterError` when one does
not. -/
theorem utf8To32Loop_fit (src : List Nat) (dstEnd : Nat) (strict : Bool)
    (hb : ∀ b ∈ src, b < 0xF8) (fuel p : Nat) (dm : List Nat) (q : Nat)
    (hfuel : src.length - p ≤ fuel) (hroom : q + (src.length - p) ≤ dstEnd)
    (hdst : dstEnd ≤ dm.length) :
    (sequencesFit 0 (src.drop p) = true →
      ∃ s1 d1, array.whileLoop (array.utf8To32Body src src.length strict) src.length dstEnd
        fuel p ⟨dm, q⟩ = (.ok (), (s1, d1))) ∧
    (sequencesFit 0 (src.drop p) = false →
      ∃ st, array.whileLoop (array.utf8To32Body src src.length strict) src.length dstEnd
        fuel p ⟨dm, q⟩ = (.error .IllegalCharacterError, st)) := by
  induction fuel generalizing p dm q with
  | zero =>
    have hp : src.length ≤ p := by omega
    rw [List.drop_eq_nil_of_le hp]
    refine ⟨fun _ => ⟨_, _, whileLoop_stop _ _ _ _ _ _ (by omega)⟩, ?_⟩
    intro h
    simp [sequencesFit] at h
  | succ fuel ih =>
    by_cases hp : src.length ≤ p
    · rw [List.drop_eq_nil_of_le hp]
      refine ⟨fun _ => ⟨_, _, whileLoop_stop _ _ _ _ _ _ (by omega)⟩, ?_⟩
      intro h
      simp [sequencesFit] at h
    · have hlt : p < src.length := by omega
      have hget : src[p]? = some src[p] := List.getElem?_eq_getElem hlt
      have hk := UTF8_BYTES_below_F8 src[p] (hb _ (List.getElem?_mem hget))
      have hdrop : src.drop p = src[p] :: src.drop (p + 1) := List.drop_eq_getElem_cons hlt
      have hfit0 : sequencesFit 0 (src.drop p)
          = sequencesFit (UTF8_BYTES.getD src[p] 0) (src.drop (p + 1)) := by
        rw [hdrop]
        rfl
      have hskip := sequencesFit_skip (UTF8_BYTES.getD src[p] 0) (src.drop (p + 1))
      rw [List.length_drop, List.drop_drop] at hskip
      by_cases hfits : UTF8_BYTES.getD src[p] 0 ≤ src.length - (p + 1)
      · obtain ⟨c, hc, _⟩ := utf8To32_short src p src.length _ strict hget hk (by omega)
          (le_refl _)
        have hstep := whileLoop_step (array.utf8To32Body src src.length strict) src.length
          dstEnd fuel p ⟨dm, q⟩ (p + UTF8_BYTES.getD src[p] 0 + 1)
          ⟨overwrite dm q [UTF32 c], q + 1⟩ ⟨hlt, by simp only; omega⟩
          (by
            unfold array.utf8To32Body
            rw [hc]
            simp only
            rw [writeInc_fresh dm q _ (by omega)])
        rw [hstep]
        have hih := ih (p + UTF8_BYTES.getD src[p] 0 + 1) (overwrite dm q [UTF32 c]) (q + 1)
          (by omega) (by omega)
          (by rw [overwrite_length dm q _ (by simp; omega)]; exact hdst)
        have hd2 : src.drop (p + UTF8_BYTES.getD src[p] 0 + 1)
            = src.drop (p + 1 + UTF8_BYTES.getD src[p] 0) := by
          congr 1
          omega
        rw [hd2] at hih
        constructor
        · intro h
          rw [hfit0] at h
          exact hih.1 (hskip.1 h).2
        · intro h
          rw [hfit0] at h
          apply hih.2
          cases hf : sequencesFit 0 (src.drop (p + 1 + UTF8_BYTES.getD src[p] 0)) with
          | false => rfl
          | true =>
            rw [hskip.2 ⟨hfits, hf⟩] at h
            cases h
      · constructor
        · intro h
          rw [hfit0] at h
          exact absurd (hskip.1 h).1 hfits
        · intro _
          refine ⟨_, whileLoop_fail _ _ _ _ _ _ .IllegalCharacterError (p, ⟨dm, q⟩)
            ⟨hlt, by simp only; omega⟩ ?_⟩
          unfold array.utf8To32Body
          rw [utf8To32_range_check src p src.length _ strict hget (by omega)]

/-- C15, as the claim states it, fails: the lenient array-level `utf8To32` raises
`IllegalCharacterError` on the truncated sequences `C3` and `F0 9F`, with nothing written. -/
theorem utf8To32_lenient_truncated_fails :
    array.utf8To32 [0xC3] 0 1 [0] 0 1 false = (.error .IllegalCharacterError, [0]) ∧
    array.utf8To32 [0xF0, 0x9F] 0 2 [0, 0] 0 2 false
      = (.error .IllegalCharacterError, [0, 0]) := by
  decide

/-- C15, amended: in lenient mode, for every 8-bit source buffer with no byte in `0xF8..0xFF`
and a destination of at least as many units as the source has bytes, the array-level `utf8To32`
returns normally when every sequence has its declared length before the end of the source, and
raises `IllegalCharacterError` when a sequence is cut off by the end of the source. -/
theorem utf8To32_lenient_outcome (src dmem : List Nat) (dstEnd : Nat)
    (hb : ∀ b ∈ src, b < 0xF8) (hroom : src.length ≤ dstEnd) (hdst : dstEnd ≤ dmem.length) :
    (sequencesFit 0 src = true →
      ∃ n mem, array.utf8To32 src 0 src.length dmem 0 dstEnd false = (.ok n, mem)) ∧
    (sequencesFit 0 src = false →
      (array.utf8To32 src 0 src.length dmem 0 dstEnd false).1
        = .error .IllegalCharacterError) := by
  have h := utf8To32Loop_fit src dstEnd false hb (src.length - 0) 0 dmem 0 (le_refl _)
    (by omega) hdst
  rw [List.drop_zero] at h
  unfold array.utf8To32 array.utf8To32Loop
  constructor
  · intro hf
    obtain ⟨s1, d1, hr⟩ := h.1 hf
    rw [hr]
    exact ⟨_, _, rfl⟩
  · intro hf
    obtain ⟨st, hr⟩ := h.2 hf
    rw [hr]
    rfl

/-- A concrete instance of the amended C15: "A" followed by the two bytes of U+00E9. -/
theorem utf8To32_lenient_outcome_witness :
    ((∀ b ∈ ([0x41, 0xC3, 0xA9] : List Nat), b < 0xF8) ∧
      ([0x41, 0xC3, 0xA9] : List Nat).length ≤ 3 ∧ 3 ≤ ([0, 0, 0] : List Nat).length) ∧
    ((sequencesFit 0 [0x41, 0xC3, 0xA9] = true →
      ∃ n mem, array.utf8To32 [0x41, 0xC3, 0xA9] 0 ([0x41, 0xC3, 0xA9] : List Nat).length
        [0, 0, 0] 0 3 false = (.ok n, mem)) ∧
    (sequencesFit 0 [0x41, 0xC3, 0xA9] = false →
      (array.utf8To32 [0x41, 0xC3, 0xA9] 0 ([0x41, 0xC3, 0xA9] : List Nat).length
        [0, 0, 0] 0 3 false).1 = .error .IllegalCharacterError)) :=
  ⟨by decide, utf8To32_lenient_outcome [0x41, 0xC3, 0xA9] [0, 0, 0] 3 (by decide) (by decide)
    (by decide)⟩

end utf
